import Mathlib

/-!
Shallow embedding of `replace.py` (iceanimations/replaceCamera).

The source is a Python 2 Nuke script.  The embedding models:

* the seven module-level regular expressions of `BackdropShot`
  (`shot_re`, `sequence_re`, `episode_re`, `episode_re2`, `project_re`,
  `char_re`, `beauty_re`) as explicit matchers over `List Char`, with
  Python's `re.search` / `re.match` / `re.findall` semantics (leftmost
  match, greedy quantifiers, IGNORECASE where the source sets it,
  non-overlapping `findall` with the empty-match advance rule);
* `BackdropShot.getFromPath`, `getPathScore`, `getNumber`,
  `getPathsFromBackdrop`;
* the candidate-path generators `_getCameraPaths_exact_method` and
  `_getCameraPaths_blob_method` (named here without the leading
  underscore), over an explicit filesystem given as the list of
  existing file paths; `os.path.join` is modelled with the posix
  separator, `glob.glob` as a componentwise filter over that list with
  the `*` wildcard (the only magic character the generators emit), hits
  returned in filesystem-list order; a formatting `TypeError`
  (`'%03d' % None`) is modelled as `Option.none`;
* the node graph as a list of nodes with id, class, position and an
  ordered list of input slots; `nuke.delete` removes the node and
  disconnects every input slot that pointed at it; `nuke.nodePaste` is
  modelled by the pasted subgraph (node list plus returned root id)
  passed as a parameter, `none` meaning the paste yielded no node and
  added nothing;
* `findCameraUpstream`, `getOutputs`, `replaceCamera` over that graph,
  with the breadth-first queue discipline of the source loop and a fuel
  argument large enough that the fuel never runs out (each step either
  deletes a graph node or shortens the queue);
* `replaceBackdropCameras` as a per-container fold, with `getPathChoice`
  and `replaceCamera` outcomes supplied by the environment, and a trace
  of user notifications and `replaceCamera` invocations recorded
  alongside the result list.  The `restore_selection` decorator's
  `return new_stuff` sits inside its `finally` block, so a decorated
  call never raises: an exception from `replaceCamera`'s body makes the
  call return the initial `[]` (falsy), and an exception from
  `replaceBackdropCameras`'s own body (only the unguarded formatting
  `TypeError` of path generation, modelled in `Except PyErr`) is
  swallowed by the outer decorator, which then returns `[]`.
-/

namespace ReplaceCam

/-! ### Character helpers -/

/-- Case-insensitive character comparison (IGNORECASE). -/
def icEq (a b : Char) : Bool := a.toLower == b.toLower

/-- The class `[a-z]` under IGNORECASE: an ASCII letter. -/
def isAZic (c : Char) : Bool :=
  (decide ('a' ≤ c) && decide (c ≤ 'z')) || (decide ('A' ≤ c) && decide (c ≤ 'Z'))

/-- The class `[\\\/]` of `episode_re2`: backslash or forward slash. -/
def isSlashB (c : Char) : Bool := c == '/' || c == '\\'

/-- Length of the leading run of decimal digits (`\d+`, greedy). -/
def takeDigitsLen : List Char → Nat
  | c :: t => if c.isDigit then takeDigitsLen t + 1 else 0
  | [] => 0

/-- Case-insensitive literal prefix test. -/
def icStartsWith : List Char → List Char → Bool
  | [], _ => true
  | _ :: _, [] => false
  | p :: ps, c :: cs => icEq p c && icStartsWith ps cs

/-- Case-sensitive literal prefix test. -/
def litStartsWith : List Char → List Char → Bool
  | [], _ => true
  | _ :: _, [] => false
  | p :: ps, c :: cs => (p == c) && litStartsWith ps cs

/-! ### Generic `re` scanning

A pattern is given by its match-at-position function
`lenAt : Nat → Option Nat`, returning the length of the (unique, after
greedy matching) match starting at that position of the subject, or
`none`.  `scanPos` is `re.search` from a position (leftmost match);
`faCountAux` counts `re.findall` matches with Python's non-overlapping
rule: after a match of length `l` at `q`, scanning resumes at `q + l`,
or at `q + 1` when the match was empty. -/

def scanPos (lenAt : Nat → Option Nat) (slen : Nat) : Nat → Nat → Option (Nat × Nat)
  | 0, _ => none
  | fuel + 1, pos =>
    if pos > slen then none
    else
      match lenAt pos with
      | some l => some (pos, l)
      | none => scanPos lenAt slen fuel (pos + 1)

def reSearch (lenAt : Nat → Option Nat) (slen : Nat) : Option (Nat × Nat) :=
  scanPos lenAt slen (slen + 2) 0

def faCountAux (lenAt : Nat → Option Nat) (slen : Nat) : Nat → Nat → Nat
  | 0, _ => 0
  | fuel + 1, pos =>
    match scanPos lenAt slen (slen + 2) pos with
    | none => 0
    | some (q, l) => 1 + faCountAux lenAt slen fuel (if l = 0 then q + 1 else q + l)

def reFindallCount (lenAt : Nat → Option Nat) (slen : Nat) : Nat :=
  faCountAux lenAt slen (slen + 2) 0

/-! ### The seven patterns of `BackdropShot` -/

/-- Match length at the head for `XY(\d+)([a-z]?)` with IGNORECASE
(`shot_re` with `SH`, `sequence_re` with `SQ`, `episode_re` with `EP`). -/
def tokLenHead (x y : Char) : List Char → Option Nat
  | a :: b :: rest =>
    if icEq a x && icEq b y then
      let d := takeDigitsLen rest
      if d = 0 then none
      else
        match rest.drop d with
        | c :: _ => if isAZic c then some (2 + d + 1) else some (2 + d)
        | [] => some (2 + d)
    else none
  | _ => none

def tokLen (x y : Char) (s : List Char) (q : Nat) : Option Nat :=
  tokLenHead x y (s.drop q)

/-- Match length at the head for `02_production[\\\/]+([^\\\/]*)`
(`episode_re2`). -/
def ep2LenHead (sub : List Char) : Option Nat :=
  if litStartsWith ("02_production".data) sub then
    let rest := sub.drop 13
    let k := (rest.takeWhile isSlashB).length
    if k = 0 then none
    else
      let m := ((rest.drop k).takeWhile (fun c => !isSlashB c)).length
      some (13 + k + m)
  else none

def ep2Len (s : List Char) (q : Nat) : Option Nat :=
  ep2LenHead (s.drop q)

/-- Group 1 of `episode_re2` at a match starting at `q`: the run of
non-slash characters after the slashes. -/
def ep2Group (s : List Char) (q : Nat) : List Char :=
  let rest := (s.drop q).drop 13
  let k := (rest.takeWhile isSlashB).length
  (rest.drop k).takeWhile (fun c => !isSlashB c)

/-- Match length at position `q` for
`(?<=[\/])[^\/]*(?=[\/]02_production)` (`project_re`; in the source the
escapes leave only the forward slash in each class).  The match is the
maximal run of non-`/` characters starting at `q`; the lookbehind needs
a `/` just before `q` and the lookahead needs `/02_production` right
after the run. -/
def projLen (s : List Char) (q : Nat) : Option Nat :=
  match q with
  | 0 => none
  | qp + 1 =>
    if s.get? qp = some '/' then
      let run := ((s.drop q).takeWhile (fun c => !(c == '/'))).length
      let rest := s.drop (q + run)
      if litStartsWith ('/' :: "02_production".data) rest then some run else none
    else none

/-- Match length for the literal `char` with IGNORECASE (`char_re`). -/
def charLen (s : List Char) (q : Nat) : Option Nat :=
  if icStartsWith ("char".data) (s.drop q) then some 4 else none

/-- Match length for the literal `beauty` with IGNORECASE (`beauty_re`). -/
def beautyLen (s : List Char) (q : Nat) : Option Nat :=
  if icStartsWith ("beauty".data) (s.drop q) then some 6 else none

/-! ### `re.search` results used by `getFromPath` -/

/-- Full text of the leftmost `XY(\d+)([a-z]?)` match (`group()`). -/
def searchTokFull (x y : Char) (s : List Char) : Option (List Char) :=
  (reSearch (tokLen x y s) s.length).map (fun ql => (s.drop ql.1).take ql.2)

/-- Group 1 of the leftmost `episode_re2` match. -/
def searchEp2Group (s : List Char) : Option (List Char) :=
  (reSearch (ep2Len s) s.length).map (fun ql => ep2Group s ql.1)

/-- Full text of the leftmost `project_re` match. -/
def searchProjFull (s : List Char) : Option (List Char) :=
  (reSearch (projLen s) s.length).map (fun ql => (s.drop ql.1).take ql.2)

/-- Python truthiness of a string-or-None value: `None` and the empty
string are falsy. -/
def pyT : Option (List Char) → Bool
  | some (_ :: _) => true
  | _ => false

/-- The four identity fields of a `BackdropShot` (the `backdrop` handle
is kept separately where needed). -/
structure ShotId where
  project : String
  episode : String
  sequence : String
  shot : String
deriving DecidableEq

/-- The episode value computed by `getFromPath`: the full `episode_re`
match, else group 1 of `episode_re2`, else `None`. -/
def episodeOfPath (s : List Char) : Option (List Char) :=
  match searchTokFull 'e' 'p' s with
  | some m => some m
  | none => searchEp2Group s

/-- `BackdropShot.getFromPath`: build an identity from a path; the
constructor is reached only when all four values are truthy. -/
def getFromPath (path : String) : Option ShotId :=
  let s := path.data
  let shot := searchTokFull 's' 'h' s
  let sequence := searchTokFull 's' 'q' s
  let episode := episodeOfPath s
  let project := searchProjFull s
  if pyT episode && pyT sequence && pyT shot && pyT project then
    some ⟨String.mk (project.getD []), String.mk (episode.getD []),
          String.mk (sequence.getD []), String.mk (shot.getD [])⟩
  else none

/-! ### `getPathScore` -/

/-- Total number of `findall` matches over the class attributes whose
name satisfies `attr.endswith('_re')` - in `dir(cls)` order: beauty,
char, episode, project, sequence, shot.  Note `episode_re2` ends in
`_re2`, not `_re`, so the scoring filter excludes it. -/
def totalMatches (path : String) : Nat :=
  let s := path.data
  let n := s.length
  reFindallCount (beautyLen s) n + reFindallCount (charLen s) n +
    reFindallCount (tokLen 'e' 'p' s) n +
    reFindallCount (projLen s) n + reFindallCount (tokLen 's' 'q' s) n +
    reFindallCount (tokLen 's' 'h' s) n

/-- `BackdropShot.getPathScore`: 10 points per `findall` match over the
patterns picked up by the `attr.endswith('_re')` scan of `dir(cls)` -
six patterns, since `'episode_re2'.endswith('_re')` is false. -/
def getPathScore (path : String) : Nat := 10 * totalMatches path

/-- Whether a pattern (given by `lenAt`) matches somewhere in `path`
(`re.search` succeeds). -/
def searchHits (lenAt : Nat → Option Nat) (slen : Nat) : Bool :=
  (reSearch lenAt slen).isSome

/-- Number of distinct patterns of the scored set (the six `_re`-named
ones) that match the path. -/
def distinctPatternsMatched (path : String) : Nat :=
  let s := path.data
  let n := s.length
  (if searchHits (beautyLen s) n then 1 else 0) +
    (if searchHits (charLen s) n then 1 else 0) +
    (if searchHits (tokLen 'e' 'p' s) n then 1 else 0) +
    (if searchHits (projLen s) n then 1 else 0) +
    (if searchHits (tokLen 's' 'q' s) n then 1 else 0) +
    (if searchHits (tokLen 's' 'h' s) n then 1 else 0)

/-! ### `getNumber` and the path generators

`BackdropShot.getNumber` runs the anchored `exp.match(value)` for the
element's regex and returns `(int(group(1)), group(2))`; no match gives
`(None, None)`, modelled as `Option.none`. -/

def digitsToNat (ds : List Char) : Nat :=
  ds.foldl (fun a c => a * 10 + (c.toNat - 48)) 0

/-- Anchored `XY(\d+)([a-z]?)` match on the characters of a value,
returning the numeric group and the letter group. -/
def getNumberL (x y : Char) : List Char → Option (Nat × String)
  | a :: b :: rest =>
    if icEq a x && icEq b y then
      let ds := rest.takeWhile Char.isDigit
      if ds.isEmpty then none
      else
        let letter : List Char :=
          match rest.drop ds.length with
          | c :: _ => if isAZic c then [c] else []
          | [] => []
        some (digitsToNat ds, String.mk letter)
    else none
  | _ => none

/-- `getNumber`: `exp.match(value)` anchored, `(int(group(1)), group(2))`. -/
def getNumber (x y : Char) (value : String) : Option (Nat × String) :=
  getNumberL x y value.data

def getShotNumber (bs : ShotId) : Option (Nat × String) := getNumber 's' 'h' bs.shot

def getEpisodeNumber (bs : ShotId) : Option (Nat × String) := getNumber 'e' 'p' bs.episode

def getSequenceNumber (bs : ShotId) : Option (Nat × String) := getNumber 's' 'q' bs.sequence

/-- `'%0wd' % n`: decimal with zero padding to width `w`. -/
def padNum (w : Nat) (n : Nat) : String :=
  let s := toString n
  String.mk (List.replicate (w - s.length) '0') ++ s

/-- Characters of the components joined with the posix separator. -/
def joinParts : List String → List Char
  | [] => []
  | [p] => p.data
  | p :: rest => p.data ++ '/' :: joinParts rest

/-- `os.path.join` modelled with the posix separator. -/
def joinP (parts : List String) : String := String.mk (joinParts parts)

/-- The four `camera_templates`, as functions of
(base, project, episode, sequence, shot, cam). -/
def camera_templates :
    List (String → String → String → String → String → String → String) :=
  [fun b p e sq sh c =>
      joinP [b, p, "02_production", e, "SEQUENCES", sq, "SHOTS", sh, "animation", "camera", c],
   fun b p e _sq sh c =>
      joinP [b, p, "02_production", e, sh, "animation", "camera", c],
   fun b p e sq sh c =>
      joinP [b, p, "02_production", e, sq, sh, "animation", "camera", c],
   fun b p e sq sh c =>
      joinP [b, p, e, sq, sh, "animation", "camera", c]]

/-- The `bases` list. -/
def bases : List String := ["L:", "P:/external", "P:/external/*", "L:/*"]

/-- The static `project_maps` alias table (`proj_folder` entries). -/
def proj_folder (p : String) : Option String :=
  if p = "Suntop" then some "Suntop_Season_01"
  else if p = "Suntop_S04" then some "Suntop_Season_04"
  else none

/-- The project variants: raw token plus any alias-mapped folder. -/
def projectVariants (bs : ShotId) : List String :=
  bs.project :: (match proj_folder bs.project with
                 | some m => [m]
                 | none => [])

/-- `fnmatch` with only the `*` wildcard (the one magic character the
generators emit), over a single path component. -/
def fnmatchStarAux : Nat → List Char → List Char → Bool
  | 0, _, _ => false
  | fuel + 1, p, n =>
    match p, n with
    | [], [] => true
    | [], _ :: _ => false
    | '*' :: ps, [] => fnmatchStarAux fuel ps []
    | '*' :: ps, c :: ns =>
      fnmatchStarAux fuel ps (c :: ns) || fnmatchStarAux fuel ('*' :: ps) ns
    | _ :: _, [] => false
    | a :: ps, c :: ns => a == c && fnmatchStarAux fuel ps ns

def fnmatchStar (p n : List Char) : Bool :=
  fnmatchStarAux (p.length + n.length + 1) p n

/-- Split a path into its `/`-separated components (empty components
kept, as `str.split` does). -/
def splitOnSlashAux : List Char → List Char → List (List Char)
  | [], acc => [acc.reverse]
  | c :: t, acc =>
    if c == '/' then acc.reverse :: splitOnSlashAux t []
    else splitOnSlashAux t (c :: acc)

def splitOnSlash (s : String) : List (List Char) := splitOnSlashAux s.data []

def headIsDot : List Char → Bool
  | c :: _ => c == '.'
  | [] => false

/-- One component of a glob pattern against one path component: a
wildcard component does not match hidden names (unless the pattern
itself starts with a dot); a literal component must be equal. -/
def compMatch (p name : List Char) : Bool :=
  if p.contains '*' then
    if headIsDot name && !headIsDot p then false
    else fnmatchStar p name
  else p == name

/-- Whether the file path matches the glob pattern: same number of
`/`-separated components, matched componentwise (`*` never crosses a
separator in `glob.glob`). -/
def globMatch (pat f : String) : Bool :=
  let ps := splitOnSlash pat
  let fc := splitOnSlash f
  ps.length == fc.length && (List.zip ps fc).all (fun pr => compMatch pr.1 pr.2)

/-- `glob.glob` over the modelled filesystem `fs` (the list of existing
file paths, hits returned in filesystem-list order). -/
def glob (fs : List String) (pat : String) : List String :=
  fs.filter (fun f => globMatch pat f)

/-- The episode variants shared shape: 2- and 3-digit zero-padded forms
with the suffix letter, used by both generators (`if ep_no:` is Python
truthiness, so a parsed episode number of 0 behaves like no parse). -/
def episodeNumVariants (n : Nat) (l : String) : List String :=
  ["ep" ++ padNum 2 n ++ l, "ep" ++ padNum 3 n ++ l]

/-- The full cross product
`itertools.product(templates, bases, projects, episodes, sequences, shots, cams)`
in source order (rightmost factor fastest), applying `k` to each built
path and concatenating. -/
def productPaths (projects episodes sequences shots cams : List String)
    (k : String → List String) : List String :=
  camera_templates.flatMap fun t =>
    bases.flatMap fun b =>
      projects.flatMap fun p =>
        episodes.flatMap fun e =>
          sequences.flatMap fun sq =>
            shots.flatMap fun sh =>
              cams.flatMap fun c => k (t b p e sq sh c)

/-- `BackdropShot._getCameraPaths_exact_method` (leading underscore
dropped): builds every literal variant and keeps the paths that exist
(`os.path.isfile`); `none` models the `TypeError` raised by
`'%03d' % None` when the sequence or shot token has no number. -/
def getCameraPaths_exact_method (fs : List String) (bs : ShotId) :
    Option (List String) := do
  let projects := projectVariants bs
  let episodes := bs.episode ::
    (match getEpisodeNumber bs with
     | some (n, l) => if n ≠ 0 then episodeNumVariants n l else []
     | none => [])
  let sq0 ← (getSequenceNumber bs).map fun p => "sq" ++ padNum 3 p.1 ++ p.2
  let sequences := sq0 :: episodes.map (fun e => e ++ "_" ++ sq0)
  let sh0 ← (getShotNumber bs).map fun p => "sh" ++ padNum 3 p.1 ++ p.2
  let shots := sh0 :: sequences.map (fun sq => sq ++ "_" ++ sh0)
  let cams := shots.map (fun sh => sh ++ "_cam.nk") ++ shots.map (fun sh => sh ++ ".nk")
  some (productPaths projects episodes sequences shots cams
    (fun path => if fs.contains path then [path] else []))

/-- `BackdropShot._getCameraPaths_blob_method` (leading underscore
dropped): builds wildcard variants and aggregates `glob.glob` hits with
`paths.extend(globs)`; `none` models the formatting `TypeError`. -/
def getCameraPaths_blob_method (fs : List String) (bs : ShotId)
    (multi_episode multi_sequence : Bool) : Option (List String) := do
  let projects := projectVariants bs
  let episodes :=
    if multi_episode then ["*"]
    else
      match getEpisodeNumber bs with
      | some (n, l) => if n ≠ 0 then episodeNumVariants n l else [bs.episode]
      | none => [bs.episode]
  let sequences ←
    if multi_sequence then some ["*"]
    else (getSequenceNumber bs).map fun p => ["*sq" ++ padNum 3 p.1 ++ p.2]
  let shots ← (getShotNumber bs).map fun p => ["*sh" ++ padNum 3 p.1 ++ p.2]
  let cams := ["*.nk"]
  some (productPaths projects episodes sequences shots cams (glob fs))

/-- Line 247 of the source: `getCameraPaths = _getCameraPaths_blob_method`. -/
def getCameraPaths (fs : List String) (bs : ShotId)
    (multi_episode multi_sequence : Bool) : Option (List String) :=
  getCameraPaths_blob_method fs bs multi_episode multi_sequence

/-- The escalation in `replaceBackdropCameras` (lines 447-449):
`paths = bds.getCameraPaths(); if not paths: paths = bds.getCameraPaths(multi_episode=True)`. -/
def resolvePaths (fs : List String) (bs : ShotId) : Option (List String) := do
  let p ← getCameraPaths fs bs false false
  if p.isEmpty then getCameraPaths fs bs true false else some p

/-- Modelled from the claim (for comparison only, not from the source):
run the exact strategy first; only if it returns an empty list, retry
with the episode widened to a wildcard. -/
def claimExactFirstResolve (fs : List String) (bs : ShotId) : Option (List String) := do
  let p ← getCameraPaths_exact_method fs bs
  if p.isEmpty then getCameraPaths_blob_method fs bs true false else some p

/-! ### `getPathsFromBackdrop` -/

/-- A node inside a backdrop, as far as `getPathsFromBackdrop` reads it:
its class and the value of its `file` knob. -/
structure RNode where
  cls : String
  file : String
deriving DecidableEq

/-- One loop iteration of `getPathsFromBackdrop`: a `Read` node with a
truthy `file` value adds its path as a dict key (`paths[file_path] =
getPathScore(file_path)`; re-assigning an existing key changes
nothing observable, since the value is a function of the key). -/
def collectStep (acc : List String) (n : RNode) : List String :=
  if n.cls == "Read" && n.file != "" then
    if acc.contains n.file then acc else acc ++ [n.file]
  else acc

/-- The key set of the `paths` dict, with first-insertion order kept as
the modelled iteration order. -/
def collectReadPaths (nodes : List RNode) : List String :=
  nodes.foldl collectStep []

/-- Stable insertion of `x` before the first element whose score does
not exceed its own (descending order, earlier-seen first among ties). -/
def insertDesc (x : String) : List String → List String
  | [] => [x]
  | y :: ys =>
    if getPathScore x < getPathScore y then y :: insertDesc x ys
    else x :: y :: ys

/-- Stable descending sort by `getPathScore`
(`sorted(paths, key=paths.get, reverse=True)`). -/
def sortDescByScore : List String → List String
  | [] => []
  | x :: xs => insertDesc x (sortDescByScore xs)

/-- `BackdropShot.getPathsFromBackdrop` over the nodes of the backdrop. -/
def getPathsFromBackdrop (nodes : List RNode) : List String :=
  sortDescByScore (collectReadPaths nodes)

/-! ### The node graph and `replaceCamera`

A node has an id, a class name, a position and an ordered list of input
slots (`None` = disconnected); the graph is the list of live nodes.
`nuke.delete` removes the node and disconnects every input slot that
pointed at it.  Calling `Class()` on a deleted handle raises
`ValueError`, modelled by a failed id lookup. -/

structure GNode where
  id : Nat
  cls : String
  xpos : Int
  ypos : Int
  inputs : List (Option Nat)
deriving DecidableEq

structure Graph where
  nodes : List GNode
deriving DecidableEq

def Graph.ids (g : Graph) : List Nat := g.nodes.map (·.id)

def Graph.find? (g : Graph) (i : Nat) : Option GNode :=
  g.nodes.find? (fun n => n.id == i)

/-- `node.dependencies()`: the connected upstream node ids. -/
def GNode.deps (n : GNode) : List Nat := n.inputs.filterMap (fun o => o)

/-- Disconnect every input slot of `n` that points at node `i`. -/
def clearInputTo (i : Nat) (n : GNode) : GNode :=
  { n with inputs := n.inputs.map (fun s => if s = some i then none else s) }

/-- `nuke.delete(i)`: remove the node and disconnect its dependents. -/
def Graph.deleteNode (g : Graph) (i : Nat) : Graph :=
  ⟨(g.nodes.filter (fun n => n.id ≠ i)).map (clearInputTo i)⟩

/-- `node.setInput(slot, v)`. -/
def Graph.setInput (g : Graph) (d slot v : Nat) : Graph :=
  ⟨g.nodes.map (fun n =>
    if n.id = d then { n with inputs := n.inputs.set slot (some v) } else n)⟩

/-- `node.setXYpos(x, y)`. -/
def Graph.setPos (g : Graph) (i : Nat) (x y : Int) : Graph :=
  ⟨g.nodes.map (fun n => if n.id = i then { n with xpos := x, ypos := y } else n)⟩

def Graph.xposOf (g : Graph) (i : Nat) : Int :=
  match g.find? i with
  | some n => n.xpos
  | none => 0

def Graph.yposOf (g : Graph) (i : Nat) : Int :=
  match g.find? i with
  | some n => n.ypos
  | none => 0

/-- `node.dependent()`: ids of the nodes with at least one input
connected to `i`. -/
def Graph.dependentIds (g : Graph) (i : Nat) : List Nat :=
  (g.nodes.filter (fun n => n.inputs.contains (some i))).map (·.id)

/-- `getOutputs(node)`: every (dependent id, input slot) pair whose slot
is connected to `i`. -/
def getOutputs (g : Graph) (i : Nat) : List (Nat × Nat) :=
  g.nodes.flatMap fun d =>
    (List.range d.inputs.length).filterMap fun k =>
      if d.inputs[k]? = some (some i) then some (d.id, k) else none

/-- The wiring of slot `k` of node `d`: `none` when the node or slot
does not exist, else the slot's connection. -/
def Graph.inputAt (g : Graph) (d k : Nat) : Option (Option Nat) :=
  (g.find? d).bind fun n => n.inputs[k]?

/-- The loop body of `findCameraUpstream`: dequeue a node; a dead handle
(`ValueError` on `Class()`) is skipped; a `Camera` is returned; any
other live node has its dependencies enqueued and, when
`delete_visited`, is deleted.  The snapshot-and-remove loop of the
source processes ids in exactly this first-in-first-out order. -/
def findCameraUpstreamAux (delV : Bool) :
    Nat → Graph → List Nat → Option Nat × Graph
  | 0, g, _ => (none, g)
  | _, g, [] => (none, g)
  | fuel + 1, g, i :: rest =>
    match g.find? i with
    | none => findCameraUpstreamAux delV fuel g rest
    | some n =>
      if n.cls = "Camera" then (some i, g)
      else
        findCameraUpstreamAux delV fuel
          (if delV then g.deleteNode i else g) (rest ++ n.deps)

/-- Enough fuel that it never runs out: every step either removes a
graph node (losing its slots and itself from the bound) or shortens the
queue. -/
def Graph.searchFuel (g : Graph) (q : List Nat) : Nat :=
  q.length + (g.nodes.map (fun n => n.inputs.length + 1)).sum + 1

/-- `findCameraUpstream(node, delete_visited)`. -/
def findCameraUpstream (g : Graph) (start : Nat) (delV : Bool) :
    Option Nat × Graph :=
  findCameraUpstreamAux delV (g.searchFuel [start]) g [start]

/-- `replaceCamera(camera, path)`.  The outcome of
`nuke.nodePaste(path)` is the parameter `paste`: `none` when the paste
yields no node (and adds nothing), otherwise the pasted subgraph and
the returned root id.  The function records the outputs and position of
the old camera, pastes, searches destructively for a camera upstream of
the paste root, and on success repositions it, deletes the residual
dependents of the new camera, deletes the old camera, and rewires every
recorded (dependent, slot) pair to the new camera. -/
def replaceCamera (g : Graph) (cam : Nat)
    (paste : Option (List GNode × Nat)) : Option Nat × Graph :=
  let dependent := getOutputs g cam
  let x := g.xposOf cam
  let y := g.yposOf cam
  match paste with
  | none => (none, g)
  | some (newNodes, root) =>
    let g1 : Graph := ⟨g.nodes ++ newNodes⟩
    match findCameraUpstream g1 root true with
    | (none, g2) => (none, g2)
    | (some nc, g2) =>
      let g3 := g2.setPos nc x y
      let g4 := (g3.dependentIds nc).foldl Graph.deleteNode g3
      let g5 := g4.deleteNode cam
      let g6 := dependent.foldl (fun h p => h.setInput p.1 p.2 nc) g5
      (some nc, g6)

/-! ### `replaceBackdropCameras`

The batch loop.  `PyErr.rce` is `ReplaceCameraException`; `PyErr.other`
is any other Python exception.  The environment supplies the
filesystem, the `getPathChoice` dialog outcome, and the outcome of the
DECORATED `replaceCamera`: since `restore_selection`'s wrapper executes
`return new_stuff` inside its `finally` block, any exception raised in
`replaceCamera`'s body is discarded and the call returns the initial
`new_stuff` (`[]`, falsy) - so a splice never raises, and its outcome
is modelled as `Option Nat` (`none` covering both the abort returns and
a swallowed body exception).  The state records the result list plus a
trace of `showMissingCameraError` notifications and `replaceCamera`
invocations. -/

inductive PyErr where
  | rce
  | other
deriving DecidableEq

/-- One backdrop shot as the loop sees it: the backdrop handle (id),
the parsed identity, and the cameras found inside the backdrop. -/
structure Bds where
  id : Nat
  shot : ShotId
  cameras : List Nat
deriving DecidableEq

structure BatchEnv where
  fs : List String
  choose : Nat → List String → Except PyErr (Option String)
  splice : Nat → Option String → Option Nat

structure BatchState where
  results : List (Nat × Option String × Nat)
  notified : List Nat
  calls : List (Nat × Option String)
deriving DecidableEq

/-- Truthiness of the `path` variable (`None` and `''` are falsy). -/
def pyTruthyStr : Option String → Bool
  | some s => s != ""
  | none => false

/-- The `try: for cam in cameras: ... except ReplaceCameraException`
block: each camera is passed to `replaceCamera`; a truthy return is
recorded as a result.  Nothing in the loop body can raise - the
decorated `replaceCamera` always returns normally - so the
`except ReplaceCameraException` handler is unreachable and the loop is
total. -/
def spliceLoop (env : BatchEnv) (bid : Nat) (path : Option String) :
    List Nat → BatchState → BatchState
  | [], st => st
  | c :: rest, st =>
    let st1 : BatchState := { st with calls := st.calls ++ [(c, path)] }
    match env.splice c path with
    | none => spliceLoop env bid path rest st1
    | some ncam =>
      spliceLoop env bid path rest
        { st1 with results := st1.results ++ [(bid, path, ncam)] }

/-- The body of the `for bds in backdropShots` loop: skip when no
cameras; resolve candidates (a formatting `TypeError` there is not
guarded inside the loop and aborts the undecorated body); pick the
single candidate, or ask the dialog (whose exceptions are caught,
leaving `path = None`); when the path is falsy, notify the user - and
then still fall through to the splice loop (the source has no
`continue` here). -/
def processOne (env : BatchEnv) (st : BatchState) (bds : Bds) :
    Except PyErr BatchState :=
  if bds.cameras.isEmpty then .ok st
  else
    match resolvePaths env.fs bds.shot with
    | none => .error PyErr.other
    | some paths =>
      let path : Option String :=
        match paths with
        | [p] => some p
        | _ :: _ :: _ =>
          match env.choose bds.id paths with
          | .ok c => c
          | .error _ => none
        | [] => none
      let st1 : BatchState :=
        if pyTruthyStr path then st
        else { st with notified := st.notified ++ [bds.id] }
      .ok (spliceLoop env bds.id path bds.cameras st1)

/-- The undecorated body of `replaceBackdropCameras`: a resolution
exception aborts the remaining containers. -/
def runBatchAux (env : BatchEnv) :
    List Bds → BatchState → Except PyErr BatchState
  | [], st => .ok st
  | b :: rest, st =>
    match processOne env st b with
    | .ok st2 => runBatchAux env rest st2
    | .error e => .error e

/-- The decorated `replaceBackdropCameras` over an already-identified
list of backdrop shots.  `restore_selection`'s `return new_stuff`
inside `finally` swallows any exception of the body and returns the
initial `new_stuff` (`[]`); on normal completion the body's `results`
list is returned. -/
def replaceBackdropCameras (env : BatchEnv) (bdss : List Bds) :
    List (Nat × Option String × Nat) :=
  match runBatchAux env bdss ⟨[], [], []⟩ with
  | .ok st => st.results
  | .error _ => []

/-! ### Concrete instances used by counterexamples and witnesses -/

/-- A path on which all four identity patterns match (episode via the
secondary pattern, with an empty capture). -/
def pathEmptyEp : String := "SQ010/SH020/A/Suntop/02_production/"

/-- The worked scenario path of the specification. -/
def scenarioPath : String :=
  "d/Suntop/02_production/ep01/SEQUENCES/sq010/SHOTS/sq010_sh020/animation/camera/sq010_sh020_cam.nk"

/-- A path matching two distinct patterns once each (score 20). -/
def twoPatPath : String := "SQ1 SH1"

/-- A path matching one pattern five times (score 50). -/
def onePatPath : String := "SH1 SH1 SH1 SH1 SH1"

/-- An identity whose episode number has three digits, so the 2-digit
and 3-digit zero-padded variants coincide. -/
def bsEp123 : ShotId := ⟨"P", "EP123", "SQ010", "SH020"⟩

/-- A file that the wildcard generator hits (the sequence and shot
directories carry prefixes that only `*` absorbs) but that no literal
variant of the exact generator equals. -/
def fBlobOnly : String := "L:/P/ep123/x_sq010/y_sh020/animation/camera/c.nk"

/-- An identity whose episode token parses to the number 0, which is
falsy, so the raw episode token is used as the single variant. -/
def bsEp0 : ShotId := ⟨"P", "EP0", "SQ010", "SH020"⟩

def fCandA : String := "L:/P/EP0/sq010/sh020/animation/camera/a.nk"

def fCandB : String := "L:/P/EP0/sq010/sh020/animation/camera/b.nk"

/-- Environment for the cancelled-disambiguation counterexample: two
candidates on disk, the dialog is cancelled, and splicing with an
absent path yields no camera. -/
def envCancel : BatchEnv :=
  ⟨[fCandA, fCandB], fun _ _ => .ok none, fun _ _ => none⟩

def bdsOneCam : Bds := ⟨1, bsEp0, [7]⟩

/-- A path from which `getFromPath` extracts exactly `bsEp0` - the form
in which identities reach the batch loop (`getFromNodes`). -/
def pathEp0 : String := "a/P/02_production/x/EP0/SQ010/SH020/c.nk"

/-- A path matching only the project pattern among the six scored ones,
while the unscored secondary episode pattern also matches. -/
def prodOnlyPath : String := "a/b/02_production/c"

/-- Environment for the completed-batch witness: one candidate, the
splice succeeds returning camera 9. -/
def envOk : BatchEnv :=
  ⟨[fCandA], fun _ _ => .ok none, fun _ _ => some 9⟩

/-- Pre-call graph for the abort counterexample: only the old camera. -/
def gOld : Graph := ⟨[⟨0, "Camera", 3, 4, []⟩]⟩

/-- A pasted subgraph with no camera whose root does not reach the
second pasted node: the search deletes the root and leaves the orphan. -/
def pasteOrphan : Option (List GNode × Nat) :=
  some ([⟨1, "X", 0, 0, []⟩, ⟨2, "Y", 0, 0, []⟩], 1)

/-- A pasted subgraph with no camera and a single root. -/
def pasteNoCam : Option (List GNode × Nat) :=
  some ([⟨1, "X", 0, 0, []⟩], 1)

/-- Pre-call graph for the success witness: the old camera (id 0) and a
consumer (id 1) whose slot 0 reads it. -/
def gWire : Graph :=
  ⟨[⟨0, "Camera", 3, 4, []⟩, ⟨1, "Merge", 0, 0, [some 0]⟩]⟩

/-- A pasted subgraph whose root is itself a camera. -/
def nsWire : List GNode := [⟨2, "Camera", 9, 9, []⟩]

def pasteCam : Option (List GNode × Nat) := some (nsWire, 2)

/-- The expected graph after successfully splicing `pasteCam` into
`gWire` at camera 0: the consumer rewired to camera 2, the new camera
at the old camera's position. -/
def gfWire : Graph := ⟨[⟨1, "Merge", 0, 0, [some 2]⟩, ⟨2, "Camera", 3, 4, []⟩]⟩

/-! ## Helper lemmas -/

theorem pyT_spec (o : Option (List Char)) :
    pyT o = true ↔ ∃ l, o = some l ∧ l ≠ [] := by
  cases o with
  | none => simp [pyT]
  | some l => cases l <;> simp [pyT]

theorem one_le_reFindallCount (lenAt : Nat → Option Nat) (slen : Nat)
    (h : searchHits lenAt slen = true) : 1 ≤ reFindallCount lenAt slen := by
  unfold searchHits reSearch at h
  cases hs : scanPos lenAt slen (slen + 2) 0 with
  | none => rw [hs] at h; simp at h
  | some ql =>
    show 1 ≤ faCountAux lenAt slen (slen + 2) 0
    rw [show slen + 2 = (slen + 1) + 1 from rfl]
    rw [faCountAux]
    rw [show (slen + 1) + 1 = slen + 2 from rfl, hs]
    exact Nat.le_add_right 1 _

theorem distinct_le_total (path : String) :
    distinctPatternsMatched path ≤ totalMatches path := by
  unfold distinctPatternsMatched totalMatches
  have step : ∀ (lenAt : Nat → Option Nat) (n : Nat),
      (if searchHits lenAt n then 1 else 0) ≤ reFindallCount lenAt n := by
    intro lenAt n
    by_cases h : searchHits lenAt n = true
    · simp [h]; exact one_le_reFindallCount lenAt n h
    · simp [h]
  exact Nat.add_le_add (Nat.add_le_add (Nat.add_le_add (Nat.add_le_add
    (Nat.add_le_add (step _ _) (step _ _)) (step _ _))
    (step _ _)) (step _ _)) (step _ _)

theorem insertDesc_perm (x : String) (l : List String) :
    (insertDesc x l).Perm (x :: l) := by
  induction l with
  | nil => simp [insertDesc]
  | cons y ys ih =>
    unfold insertDesc
    by_cases h : getPathScore x < getPathScore y
    · simp only [if_pos h]
      exact (ih.cons y).trans (List.Perm.swap x y ys)
    · simp [h]

theorem sortDescByScore_perm (l : List String) :
    (sortDescByScore l).Perm l := by
  induction l with
  | nil => exact List.Perm.refl _
  | cons x xs ih =>
    exact (insertDesc_perm x (sortDescByScore xs)).trans (ih.cons x)

theorem collect_fold_spec (nodes : List RNode) :
    ∀ acc : List String,
      (∀ p, p ∈ nodes.foldl collectStep acc ↔
        p ∈ acc ∨ (p ≠ "" ∧ ∃ n ∈ nodes, n.cls = "Read" ∧ n.file = p)) ∧
      (acc.Nodup → (nodes.foldl collectStep acc).Nodup) := by
  induction nodes with
  | nil => intro acc; simp
  | cons n t ih =>
    intro acc
    simp only [List.foldl_cons]
    by_cases hr : (n.cls == "Read" && n.file != "") = true
    · have hcls : n.cls = "Read" := by
        have := (Bool.and_eq_true _ _).mp hr
        simpa using this.1
      have hfile : n.file ≠ "" := by
        have := (Bool.and_eq_true _ _).mp hr
        simpa using this.2
      by_cases hc : acc.contains n.file = true
      · have hmem : n.file ∈ acc := List.elem_iff.mp hc
        have hstep : collectStep acc n = acc := by
          unfold collectStep
          rw [if_pos hr, if_pos hc]
        rw [hstep]
        refine ⟨fun p => ?_, (ih acc).2⟩
        rw [(ih acc).1 p]
        constructor
        · rintro (h | h)
          · exact Or.inl h
          · exact Or.inr ⟨h.1, h.2.imp (fun m hm => ⟨List.mem_cons_of_mem n hm.1, hm.2⟩)⟩
        · rintro (h | ⟨hne, m, hm, hmcls, hmfile⟩)
          · exact Or.inl h
          · rcases List.mem_cons.mp hm with rfl | hm
            · exact Or.inl (hmfile ▸ hmem)
            · exact Or.inr ⟨hne, m, hm, hmcls, hmfile⟩
      · have hstep : collectStep acc n = acc ++ [n.file] := by
          unfold collectStep
          rw [if_pos hr, if_neg hc]
        rw [hstep]
        constructor
        · intro p
          rw [(ih (acc ++ [n.file])).1 p]
          simp only [List.mem_append, List.mem_singleton]
          constructor
          · rintro ((h | rfl) | ⟨hne, m, hm, hmcls, hmfile⟩)
            · exact Or.inl h
            · exact Or.inr ⟨hfile, n, List.mem_cons_self n t, hcls, rfl⟩
            · exact Or.inr ⟨hne, m, List.mem_cons_of_mem n hm, hmcls, hmfile⟩
          · rintro (h | ⟨hne, m, hm, hmcls, hmfile⟩)
            · exact Or.inl (Or.inl h)
            · rcases List.mem_cons.mp hm with rfl | hm
              · exact Or.inl (Or.inr hmfile.symm)
              · exact Or.inr ⟨hne, m, hm, hmcls, hmfile⟩
        · intro hacc
          refine (ih (acc ++ [n.file])).2 ?_
          have hnm : n.file ∉ acc := fun hmem => hc (List.elem_iff.mpr hmem)
          rw [List.nodup_append]
          refine ⟨hacc, List.nodup_singleton _, ?_⟩
          intro a ha hb
          rw [List.mem_singleton] at hb
          exact hnm (hb ▸ ha)
    · have hstep : collectStep acc n = acc := by
        rw [Bool.not_eq_true] at hr
        simp [collectStep, hr]
      rw [hstep]
      refine ⟨fun p => ?_, (ih acc).2⟩
      rw [(ih acc).1 p]
      have hnr : ¬(n.cls = "Read" ∧ n.file ≠ "") := by
        intro ⟨h1, h2⟩
        exact hr (by simp [h1, h2])
      constructor
      · rintro (h | h)
        · exact Or.inl h
        · exact Or.inr ⟨h.1, h.2.imp (fun m hm => ⟨List.mem_cons_of_mem n hm.1, hm.2⟩)⟩
      · rintro (h | ⟨hne, m, hm, hmcls, hmfile⟩)
        · exact Or.inl h
        · rcases List.mem_cons.mp hm with rfl | hm
          · exact absurd ⟨hmcls, hmfile ▸ hne⟩ hnr
          · exact Or.inr ⟨hne, m, hm, hmcls, hmfile⟩

theorem mem_productPaths (projects episodes sequences shots cams : List String)
    (k : String → List String) (p : String)
    (h : p ∈ productPaths projects episodes sequences shots cams k) :
    ∃ path, p ∈ k path := by
  simp only [productPaths, List.mem_flatMap] at h
  obtain ⟨t, -, b, -, pj, -, e, -, s1, -, s2, -, c, -, hp⟩ := h
  exact ⟨_, hp⟩

theorem blob_sound (fs : List String) (bs : ShotId) (me ms : Bool)
    (l : List String) (h : getCameraPaths_blob_method fs bs me ms = some l) :
    ∀ p ∈ l, p ∈ fs := by
  intro p hp
  unfold getCameraPaths_blob_method at h
  cases ms with
  | false =>
    rw [if_neg Bool.false_ne_true] at h
    simp only [bind, Option.bind_eq_some] at h
    obtain ⟨sequences, -, shots, -, h⟩ := h
    injection h with h
    subst h
    obtain ⟨path, hpath⟩ := mem_productPaths _ _ _ _ _ _ p hp
    exact (List.mem_filter.mp hpath).1
  | true =>
    rw [if_pos rfl] at h
    simp only [bind, Option.bind_eq_some] at h
    obtain ⟨sequences, -, shots, -, h⟩ := h
    injection h with h
    subst h
    obtain ⟨path, hpath⟩ := mem_productPaths _ _ _ _ _ _ p hp
    exact (List.mem_filter.mp hpath).1

theorem spliceLoop_all_none (env : BatchEnv) (bid : Nat)
    (hsp : ∀ c, env.splice c none = none) :
    ∀ (cams : List Nat) (st : BatchState),
      spliceLoop env bid none cams st =
        ⟨st.results, st.notified, st.calls ++ cams.map (fun c => (c, none))⟩ := by
  intro cams
  induction cams with
  | nil => intro st; simp [spliceLoop]
  | cons c rest ih =>
    intro st
    rw [spliceLoop, hsp c]
    rw [ih]
    simp

theorem processOne_missing_path (env : BatchEnv) (bds : Bds) (st : BatchState)
    (paths : List String)
    (hcam : bds.cameras.isEmpty = false)
    (hres : resolvePaths env.fs bds.shot = some paths)
    (hfail : paths = [] ∨ (2 ≤ paths.length ∧ env.choose bds.id paths = .ok none))
    (hsp : ∀ c, env.splice c none = none) :
    processOne env st bds =
      .ok ⟨st.results, st.notified ++ [bds.id],
           st.calls ++ bds.cameras.map (fun c => (c, none))⟩ := by
  unfold processOne
  rw [if_neg (by rw [hcam]; exact Bool.false_ne_true)]
  rw [hres]
  rcases hfail with rfl | ⟨hlen, hch⟩
  · show Except.ok (spliceLoop env bds.id none bds.cameras
        ⟨st.results, st.notified ++ [bds.id], st.calls⟩) = _
    rw [spliceLoop_all_none env bds.id hsp]
  · match paths, hlen with
    | a :: b :: r, _ =>
      show Except.ok
          (let path : Option String :=
              match env.choose bds.id (a :: b :: r) with
              | .ok c => c
              | .error _ => none
            let st1 : BatchState :=
              if pyTruthyStr path = true then st
              else { st with notified := st.notified ++ [bds.id] }
            spliceLoop env bds.id path (bds.cameras) st1) = _
      rw [hch]
      show Except.ok (spliceLoop env bds.id none bds.cameras
          ⟨st.results, st.notified ++ [bds.id], st.calls⟩) = _
      rw [spliceLoop_all_none env bds.id hsp]

theorem processOne_ok (env : BatchEnv) (bds : Bds) (st : BatchState)
    (hres : (resolvePaths env.fs bds.shot).isSome) :
    ∃ st2, processOne env st bds = .ok st2 := by
  unfold processOne
  by_cases hc : bds.cameras.isEmpty = true
  · rw [if_pos hc]; exact ⟨st, rfl⟩
  · rw [if_neg hc]
    obtain ⟨paths, hp⟩ := Option.isSome_iff_exists.mp hres
    rw [hp]
    exact ⟨_, rfl⟩

theorem runBatchAux_ok (env : BatchEnv) (bdss : List Bds)
    (hres : ∀ b ∈ bdss, (resolvePaths env.fs b.shot).isSome) :
    ∀ st, ∃ st2, runBatchAux env bdss st = .ok st2 := by
  induction bdss with
  | nil => intro st; exact ⟨st, rfl⟩
  | cons b t ih =>
    intro st
    obtain ⟨st2, h2⟩ := processOne_ok env b st (hres b (List.mem_cons_self b t))
    rw [runBatchAux, h2]
    exact ih (fun b hb => hres b (List.mem_cons_of_mem _ hb)) st2

/-- A successful scan reports a position where the pattern matches with
the reported length. -/
theorem scanPos_some (lenAt : Nat → Option Nat) (slen : Nat) :
    ∀ (fuel pos q len : Nat), scanPos lenAt slen fuel pos = some (q, len) →
      lenAt q = some len := by
  intro fuel
  induction fuel with
  | zero => intro pos q len h; exact absurd h (by simp [scanPos])
  | succ fuel ih =>
    intro pos q len h
    rw [scanPos] at h
    by_cases hp : pos > slen
    · rw [if_pos hp] at h; cases h
    · rw [if_neg hp] at h
      cases hl : lenAt pos with
      | some l2 =>
        rw [hl] at h
        injection h with h
        have hq : pos = q := congrArg Prod.fst h
        have hlen : l2 = len := congrArg Prod.snd h
        rw [← hq, hl, hlen]
      | none =>
        rw [hl] at h
        exact ih (pos + 1) q len h

/-- A token match `XY(\d+)([a-z]?)` starts with the two matched letters
followed by a digit, and is at least three characters long. -/
theorem tokLenHead_shape (x y : Char) (sub : List Char) (len : Nat)
    (h : tokLenHead x y sub = some len) :
    ∃ a b c zs, sub = a :: b :: c :: zs ∧ (icEq a x && icEq b y) = true ∧
      c.isDigit = true ∧ 3 ≤ len := by
  match sub with
  | [] => simp [tokLenHead] at h
  | [a] => simp [tokLenHead] at h
  | a :: b :: rest =>
    simp only [tokLenHead] at h
    by_cases hic : (icEq a x && icEq b y) = true
    · rw [if_pos hic] at h
      by_cases hd : takeDigitsLen rest = 0
      · rw [if_pos hd] at h; cases h
      · rw [if_neg hd] at h
        obtain ⟨c, t2, rfl, hc⟩ : ∃ c t2, rest = c :: t2 ∧ c.isDigit = true := by
          cases rest with
          | nil => simp [takeDigitsLen] at hd
          | cons c t2 =>
            by_cases hcd : c.isDigit = true
            · exact ⟨c, t2, rfl, hcd⟩
            · rw [takeDigitsLen, if_neg hcd] at hd; exact absurd rfl hd
        have hd1 : 1 ≤ takeDigitsLen (c :: t2) := Nat.one_le_iff_ne_zero.mpr hd
        refine ⟨a, b, c, t2, rfl, hic, hc, ?_⟩
        cases hdrop : (c :: t2).drop (takeDigitsLen (c :: t2)) with
        | nil => rw [hdrop] at h; injection h with h; omega
        | cons c2 t3 =>
          rw [hdrop] at h
          have h2 : (if isAZic c2 = true then some (2 + takeDigitsLen (c :: t2) + 1)
              else some (2 + takeDigitsLen (c :: t2))) = some len := h
          by_cases haz : isAZic c2 = true
          · rw [if_pos haz] at h2; injection h2 with h2; omega
          · rw [if_neg haz] at h2; injection h2 with h2; omega
    · rw [if_neg hic] at h; cases h

/-- The anchored `getNumber` match succeeds on any value starting with
the two token letters followed by a digit. -/
theorem getNumberL_isSome (x y a b c : Char) (zs : List Char)
    (hic : (icEq a x && icEq b y) = true) (hc : c.isDigit = true) :
    (getNumberL x y (a :: b :: c :: zs)).isSome = true := by
  simp [getNumberL, hic, List.takeWhile_cons, hc]

/-- The full text of a leftmost token match is itself accepted by the
anchored `getNumber` match for the same token. -/
theorem searchTokFull_parses (x y : Char) (s : List Char) (l : List Char)
    (h : searchTokFull x y s = some l) : (getNumberL x y l).isSome = true := by
  unfold searchTokFull at h
  obtain ⟨ql, hq, hl⟩ := Option.map_eq_some'.mp h
  obtain ⟨q, len⟩ := ql
  have htl : tokLen x y s q = some len := scanPos_some _ _ _ _ _ _ hq
  obtain ⟨a, b, c, zs, hsub, hic, hc, hlen⟩ := tokLenHead_shape x y (s.drop q) len htl
  subst hl
  rw [hsub]
  obtain ⟨m, rfl⟩ : ∃ m, len = m + 3 := ⟨len - 3, by omega⟩
  simp only [List.take_succ_cons]
  exact getNumberL_isSome x y a b c (zs.take m) hic hc

/-- An identity built by `getFromPath` carries sequence and shot tokens
on which `getNumber` succeeds (its sequence and shot fields are full
`sequence_re`/`shot_re` matches). -/
theorem getFromPath_parses (path : String) (bs : ShotId)
    (h : getFromPath path = some bs) :
    (getNumber 's' 'q' bs.sequence).isSome = true ∧
    (getNumber 's' 'h' bs.shot).isSome = true := by
  unfold getFromPath at h
  by_cases hc : (pyT (episodeOfPath path.data) && pyT (searchTokFull 's' 'q' path.data) &&
      pyT (searchTokFull 's' 'h' path.data) && pyT (searchProjFull path.data)) = true
  · rw [if_pos hc] at h
    obtain ⟨⟨⟨he, hq⟩, hh⟩, hp⟩ := by simpa [Bool.and_eq_true] using hc
    obtain ⟨lq, hlq, -⟩ := (pyT_spec _).mp hq
    obtain ⟨lh, hlh, -⟩ := (pyT_spec _).mp hh
    cases h
    refine ⟨?_, ?_⟩
    · show (getNumberL 's' 'q' ((searchTokFull 's' 'q' path.data).getD [])).isSome = true
      rw [hlq]
      exact searchTokFull_parses 's' 'q' path.data lq hlq
    · show (getNumberL 's' 'h' ((searchTokFull 's' 'h' path.data).getD [])).isSome = true
      rw [hlh]
      exact searchTokFull_parses 's' 'h' path.data lh hlh
  · rw [if_neg hc] at h
    cases h

/-- When the sequence and shot tokens parse, the wildcard generator
never raises the formatting error, whatever the widening flags. -/
theorem blob_isSome (fs : List String) (bs : ShotId) (me ms : Bool)
    (hsq : (getNumber 's' 'q' bs.sequence).isSome = true)
    (hsh : (getNumber 's' 'h' bs.shot).isSome = true) :
    (getCameraPaths_blob_method fs bs me ms).isSome = true := by
  obtain ⟨nq, hq⟩ := Option.isSome_iff_exists.mp hsq
  obtain ⟨nh, hh⟩ := Option.isSome_iff_exists.mp hsh
  have hq2 : getSequenceNumber bs = some nq := hq
  have hh2 : getShotNumber bs = some nh := hh
  unfold getCameraPaths_blob_method
  cases ms with
  | false =>
    rw [if_neg Bool.false_ne_true]
    rw [hq2, hh2]
    rfl
  | true =>
    rw [if_pos rfl, hh2]
    rfl

/-- When the sequence and shot tokens parse, both resolution passes run
without raising, so the escalation returns a candidate list. -/
theorem resolvePaths_isSome (fs : List String) (bs : ShotId)
    (hsq : (getNumber 's' 'q' bs.sequence).isSome = true)
    (hsh : (getNumber 's' 'h' bs.shot).isSome = true) :
    (resolvePaths fs bs).isSome = true := by
  obtain ⟨L, hL⟩ := Option.isSome_iff_exists.mp (blob_isSome fs bs false false hsq hsh)
  have hL2 : getCameraPaths fs bs false false = some L := hL
  unfold resolvePaths
  rw [hL2]
  show (if L.isEmpty = true then getCameraPaths fs bs true false else some L).isSome = true
  by_cases he : L.isEmpty = true
  · rw [if_pos he]
    exact blob_isSome fs bs true false hsq hsh
  · rw [if_neg he]
    rfl

theorem clearInputTo_id (i : Nat) (n : GNode) : (clearInputTo i n).id = n.id := rfl

theorem clearInputTo_inputs_length (i : Nat) (n : GNode) :
    (clearInputTo i n).inputs.length = n.inputs.length := by
  simp [clearInputTo]

theorem mem_deps_iff (n : GNode) (j : Nat) : j ∈ n.deps ↔ some j ∈ n.inputs := by
  simp [GNode.deps, List.mem_filterMap]

theorem map_eq_self_of {α : Type} (l : List α) (f : α → α)
    (h : ∀ a ∈ l, f a = a) : l.map f = l := by
  induction l with
  | nil => rfl
  | cons a t ih =>
    simp only [List.map_cons]
    rw [h a (List.mem_cons_self a t), ih (fun b hb => h b (List.mem_cons_of_mem a hb))]

theorem clearInputTo_eq_self (i : Nat) (n : GNode) (h : i ∉ n.deps) :
    clearInputTo i n = n := by
  unfold clearInputTo
  have heq : n.inputs.map (fun s => if s = some i then none else s) = n.inputs := by
    apply map_eq_self_of
    intro s hs
    rw [if_neg]
    intro hsi
    exact h ((mem_deps_iff n i).mpr (hsi ▸ hs))
  rw [heq]

theorem clearInputTo_deps (i : Nat) (n : GNode) (j : Nat)
    (h : j ∈ (clearInputTo i n).deps) : j ∈ n.deps ∧ j ≠ i := by
  rw [mem_deps_iff] at h
  simp only [clearInputTo, List.mem_map] at h
  obtain ⟨s, hs, hsj⟩ := h
  by_cases hsi : s = some i
  · rw [if_pos hsi] at hsj; cases hsj
  · rw [if_neg hsi] at hsj
    subst hsj
    exact ⟨(mem_deps_iff n j).mpr hs, fun hji => hsi (by rw [hji])⟩

theorem find?_filterNe (l : List GNode) (i e : Nat) (hne : e ≠ i) :
    (l.filter (fun n => decide (n.id ≠ i))).find? (fun n => n.id == e) =
      l.find? (fun n => n.id == e) := by
  induction l with
  | nil => rfl
  | cons n t ih =>
    by_cases h : (n.id == e) = true
    · have hid : n.id = e := by simpa using h
      have hkeep : (decide (n.id ≠ i)) = true := by simp [hid, hne]
      rw [@List.filter_cons_of_pos GNode (fun m => decide (m.id ≠ i)) n t hkeep,
          @List.find?_cons_of_pos GNode (fun m => m.id == e) n t h,
          @List.find?_cons_of_pos GNode (fun m => m.id == e) n (t.filter (fun m => decide (m.id ≠ i))) h]
    · by_cases hk : (decide (n.id ≠ i)) = true
      · rw [@List.filter_cons_of_pos GNode (fun m => decide (m.id ≠ i)) n t hk,
            @List.find?_cons_of_neg GNode (fun m => m.id == e) n (t.filter (fun m => decide (m.id ≠ i))) h,
            @List.find?_cons_of_neg GNode (fun m => m.id == e) n t h]
        exact ih
      · rw [@List.filter_cons_of_neg GNode (fun m => decide (m.id ≠ i)) n t hk,
            @List.find?_cons_of_neg GNode (fun m => m.id == e) n t h]
        exact ih

theorem find?_mapIdPres (l : List GNode) (f : GNode → GNode)
    (hf : ∀ n, (f n).id = n.id) (e : Nat) :
    (l.map f).find? (fun n => n.id == e) =
      (l.find? (fun n => n.id == e)).map f := by
  induction l with
  | nil => rfl
  | cons n t ih =>
    by_cases h : (n.id == e) = true
    · have hfn : ((f n).id == e) = true := by rw [hf n]; exact h
      rw [List.map_cons,
          @List.find?_cons_of_pos GNode (fun m => m.id == e) (f n) (t.map f) hfn,
          @List.find?_cons_of_pos GNode (fun m => m.id == e) n t h]
      rfl
    · have hfn : ¬((f n).id == e) = true := by rw [hf n]; exact h
      rw [List.map_cons,
          @List.find?_cons_of_neg GNode (fun m => m.id == e) (f n) (t.map f) hfn,
          @List.find?_cons_of_neg GNode (fun m => m.id == e) n t h]
      exact ih

theorem graph_find?_def (g : Graph) (e : Nat) :
    g.find? e = g.nodes.find? (fun n => n.id == e) := rfl

theorem find?_deleteNode_ne (g : Graph) (i e : Nat) (hne : e ≠ i) :
    (g.deleteNode i).find? e = (g.find? e).map (clearInputTo i) := by
  show ((g.nodes.filter (fun n => decide (n.id ≠ i))).map (clearInputTo i)).find?
      (fun n => n.id == e) = _
  rw [find?_mapIdPres (g.nodes.filter (fun n => decide (n.id ≠ i))) (clearInputTo i)
        (fun n => rfl) e,
      find?_filterNe g.nodes i e hne]
  rfl

theorem find?_setInput (g : Graph) (d slot v e : Nat) :
    (g.setInput d slot v).find? e =
      (g.find? e).map (fun n =>
        if n.id = d then { n with inputs := n.inputs.set slot (some v) } else n) :=
  find?_mapIdPres g.nodes
    (fun n => if n.id = d then { n with inputs := n.inputs.set slot (some v) } else n)
    (fun n => by by_cases h : n.id = d <;> simp [h]) e

theorem find?_setPos (g : Graph) (i : Nat) (x y : Int) (e : Nat) :
    (g.setPos i x y).find? e =
      (g.find? e).map (fun n => if n.id = i then { n with xpos := x, ypos := y } else n) :=
  find?_mapIdPres g.nodes
    (fun n => if n.id = i then { n with xpos := x, ypos := y } else n)
    (fun n => by by_cases h : n.id = i <;> simp [h]) e

theorem find?_id_of_some (g : Graph) (e : Nat) (n : GNode)
    (h : g.find? e = some n) : n.id = e ∧ n ∈ g.nodes := by
  rw [graph_find?_def] at h
  have hb : (n.id == e) = true := @List.find?_some _ (fun m => m.id == e) n g.nodes h
  exact ⟨by simpa using hb, List.mem_of_find?_eq_some h⟩

theorem find?_setInput_ne (g : Graph) (d slot v e : Nat) (hne : e ≠ d) :
    (g.setInput d slot v).find? e = g.find? e := by
  rw [find?_setInput]
  cases h : g.find? e with
  | none => rfl
  | some n =>
    have := (find?_id_of_some g e n h).1
    simp [this, hne]

theorem find?_setPos_ne (g : Graph) (i : Nat) (x y : Int) (e : Nat) (hne : e ≠ i) :
    (g.setPos i x y).find? e = g.find? e := by
  rw [find?_setPos]
  cases h : g.find? e with
  | none => rfl
  | some n =>
    have := (find?_id_of_some g e n h).1
    simp [this, hne]

theorem find?_isSome_iff_mem_ids (g : Graph) (e : Nat) :
    (g.find? e).isSome = true ↔ e ∈ g.ids := by
  rw [graph_find?_def]
  unfold Graph.ids
  rw [List.find?_isSome]
  constructor
  · rintro ⟨n, hn, hb⟩
    exact List.mem_map.mpr ⟨n, hn, by simpa using hb⟩
  · intro h
    obtain ⟨n, hn, hid⟩ := List.mem_map.mp h
    exact ⟨n, hn, by simp [hid]⟩

theorem list_find?_of_mem_nodup (l : List GNode) (n : GNode)
    (hmem : n ∈ l) (hnd : (l.map GNode.id).Nodup) :
    l.find? (fun m => m.id == n.id) = some n := by
  induction l with
  | nil => cases hmem
  | cons m t ih =>
    have hnd2 : m.id ∉ t.map GNode.id ∧ (t.map GNode.id).Nodup := by
      rw [List.map_cons, List.nodup_cons] at hnd
      exact hnd
    rcases List.mem_cons.mp hmem with rfl | hmem
    · rw [List.find?_cons_of_pos _ (by simp)]
    · have hne : m.id ≠ n.id := by
        intro he
        exact hnd2.1 (he ▸ List.mem_map.mpr ⟨n, hmem, rfl⟩)
      rw [List.find?_cons_of_neg _ (by simp [hne])]
      exact ih hmem hnd2.2

theorem find?_of_mem_nodup (g : Graph) (n : GNode)
    (hmem : n ∈ g.nodes) (hnd : g.ids.Nodup) : g.find? n.id = some n :=
  list_find?_of_mem_nodup g.nodes n hmem hnd

theorem find?_append_left (g : Graph) (ns : List GNode) (e : Nat)
    (h : (g.find? e).isSome = true) :
    (Graph.mk (g.nodes ++ ns)).find? e = g.find? e := by
  obtain ⟨n, hn⟩ := Option.isSome_iff_exists.mp h
  rw [graph_find?_def] at hn ⊢
  rw [graph_find?_def]
  show (g.nodes ++ ns).find? (fun n => n.id == e) = _
  rw [List.find?_append, hn]
  rfl

theorem deleteNode_ids_sublist (g : Graph) (i : Nat) :
    (g.deleteNode i).ids.Sublist g.ids := by
  show ((g.nodes.filter (fun n => decide (n.id ≠ i))).map (clearInputTo i)).map GNode.id
      |>.Sublist (g.nodes.map GNode.id)
  rw [List.map_map]
  rw [show (GNode.id ∘ clearInputTo i) = GNode.id from rfl]
  exact List.Sublist.map GNode.id (List.filter_sublist g.nodes)

theorem mem_deleteNode (g : Graph) (i : Nat) (m : GNode) :
    m ∈ (g.deleteNode i).nodes ↔
      ∃ n ∈ g.nodes, n.id ≠ i ∧ m = clearInputTo i n := by
  show m ∈ (g.nodes.filter (fun n => decide (n.id ≠ i))).map (clearInputTo i) ↔ _
  simp only [List.mem_map, List.mem_filter]
  constructor
  · rintro ⟨n, ⟨hn, hni⟩, rfl⟩
    exact ⟨n, hn, by simpa using hni, rfl⟩
  · rintro ⟨n, hn, hni, rfl⟩
    exact ⟨n, ⟨hn, by simpa using hni⟩, rfl⟩



theorem findAux_spec (S : List Nat) :
    ∀ (fuel : Nat) (g : Graph) (q : List Nat),
      (∀ i ∈ q, i ∈ S) →
      (∀ n ∈ g.nodes, n.id ∈ S → ∀ j ∈ n.deps, j ∈ S) →
      (∀ n ∈ g.nodes, n.id ∉ S → ∀ j ∈ n.deps, j ∉ S) →
      (∀ e, e ∉ S → (findCameraUpstreamAux true fuel g q).2.find? e = g.find? e) ∧
      (∀ i, (findCameraUpstreamAux true fuel g q).1 = some i → i ∈ S) ∧
      (findCameraUpstreamAux true fuel g q).2.ids.Sublist g.ids := by
  intro fuel
  induction fuel with
  | zero =>
    intro g q hq h2 h3
    cases q with
    | nil => exact ⟨fun e he => rfl, fun i hi => Option.noConfusion hi, List.Sublist.refl _⟩
    | cons a t => exact ⟨fun e he => rfl, fun i hi => Option.noConfusion hi, List.Sublist.refl _⟩
  | succ fuel ih =>
    intro g q hq h2 h3
    cases q with
    | nil =>
      exact ⟨fun e he => rfl, fun i hi => Option.noConfusion hi, List.Sublist.refl _⟩
    | cons i rest =>
      have hiS : i ∈ S := hq i (List.mem_cons_self i rest)
      have hunfold : findCameraUpstreamAux true (fuel + 1) g (i :: rest) =
          (match g.find? i with
           | none => findCameraUpstreamAux true fuel g rest
           | some n =>
             if n.cls = "Camera" then (some i, g)
             else findCameraUpstreamAux true fuel (g.deleteNode i) (rest ++ n.deps)) := rfl
      cases hf : g.find? i with
      | none =>
        have hstep : findCameraUpstreamAux true (fuel + 1) g (i :: rest) =
            findCameraUpstreamAux true fuel g rest := by
          rw [hunfold, hf]
        rw [hstep]
        exact ih g rest (fun j hj => hq j (List.mem_cons_of_mem i hj)) h2 h3
      | some n =>
        obtain ⟨hnid, hnmem⟩ := find?_id_of_some g i n hf
        by_cases hcam : n.cls = "Camera"
        · have hstep : findCameraUpstreamAux true (fuel + 1) g (i :: rest) = (some i, g) := by
            rw [hunfold, hf]
            exact if_pos hcam
          rw [hstep]
          refine ⟨fun e he => rfl, fun j hj => ?_, List.Sublist.refl _⟩
          injection hj with hj
          exact hj ▸ hiS
        · have hstep : findCameraUpstreamAux true (fuel + 1) g (i :: rest) =
              findCameraUpstreamAux true fuel (g.deleteNode i) (rest ++ n.deps) := by
            rw [hunfold, hf]
            exact if_neg hcam
          rw [hstep]
          have hq2 : ∀ j ∈ rest ++ n.deps, j ∈ S := by
            intro j hj
            rcases List.mem_append.mp hj with hj | hj
            · exact hq j (List.mem_cons_of_mem i hj)
            · exact h2 n hnmem (hnid ▸ hiS) j hj
          have h22 : ∀ m ∈ (g.deleteNode i).nodes, m.id ∈ S → ∀ j ∈ m.deps, j ∈ S := by
            intro m hm hmS j hj
            obtain ⟨n0, hn0, hn0i, rfl⟩ := (mem_deleteNode g i m).mp hm
            exact h2 n0 hn0 hmS j (clearInputTo_deps i n0 j hj).1
          have h32 : ∀ m ∈ (g.deleteNode i).nodes, m.id ∉ S → ∀ j ∈ m.deps, j ∉ S := by
            intro m hm hmS j hj
            obtain ⟨n0, hn0, hn0i, rfl⟩ := (mem_deleteNode g i m).mp hm
            exact h3 n0 hn0 hmS j (clearInputTo_deps i n0 j hj).1
          obtain ⟨F1, F2, F3⟩ := ih (g.deleteNode i) (rest ++ n.deps) hq2 h22 h32
          refine ⟨fun e he => ?_, F2, F3.trans (deleteNode_ids_sublist g i)⟩
          rw [F1 e he]
          have hei : e ≠ i := fun hei => he (hei ▸ hiS)
          rw [find?_deleteNode_ne g i e hei]
          cases hfe : g.find? e with
          | none => rfl
          | some m =>
            obtain ⟨hmid, hmmem⟩ := find?_id_of_some g e m hfe
            have hiNot : i ∉ m.deps := fun hin => h3 m hmmem (hmid ▸ he) i hin hiS
            simp [clearInputTo_eq_self i m hiNot]



theorem foldl_deleteNode_find? (S : List Nat) (D : List Nat) (hD : ∀ d ∈ D, d ∈ S) :
    ∀ (h : Graph) (e : Nat), e ∉ S →
      (∀ m, h.find? e = some m → ∀ j ∈ m.deps, j ∉ S) →
      (D.foldl Graph.deleteNode h).find? e = h.find? e := by
  induction D with
  | nil => intro h e he hdeps; rfl
  | cons d t ih =>
    intro h e he hdeps
    have hdS : d ∈ S := hD d (List.mem_cons_self d t)
    have hed : e ≠ d := fun hed => he (hed ▸ hdS)
    have hdel : (h.deleteNode d).find? e = h.find? e := by
      rw [find?_deleteNode_ne h d e hed]
      cases hfe : h.find? e with
      | none => rfl
      | some m =>
        have hdNot : d ∉ m.deps := fun hin => hdeps m hfe d hin hdS
        simp [clearInputTo_eq_self d m hdNot]
    rw [List.foldl_cons]
    rw [ih (fun x hx => hD x (List.mem_cons_of_mem d hx)) (h.deleteNode d) e he ?_, hdel]
    intro m hm j hj
    rw [hdel] at hm
    exact hdeps m hm j hj

theorem setInput_preserves_length (n : GNode) (slot v : Nat) :
    ({ n with inputs := n.inputs.set slot (some v) } : GNode).inputs.length = n.inputs.length := by
  simp

theorem setInput_find?_exists_iff (h : Graph) (d j v e k : Nat) :
    (∃ m, (h.setInput d j v).find? e = some m ∧ k < m.inputs.length) ↔
      (∃ m, h.find? e = some m ∧ k < m.inputs.length) := by
  rw [find?_setInput]
  cases hf : h.find? e with
  | none => simp
  | some m =>
    simp only [Option.map_some']
    constructor
    · rintro ⟨m2, hm2, hk2⟩
      injection hm2 with hm2
      refine ⟨m, rfl, ?_⟩
      by_cases hid : m.id = d
      · rw [← hm2] at hk2; simpa [hid] using hk2
      · rw [← hm2] at hk2; simpa [hid] using hk2
    · rintro ⟨m2, hm2, hk2⟩
      injection hm2 with hm2
      have hk3 : k < m.inputs.length := by rw [hm2]; exact hk2
      refine ⟨if m.id = d then { m with inputs := m.inputs.set j (some v) } else m, rfl, ?_⟩
      by_cases hid : m.id = d <;> simp [hid, hk3]

theorem setInput_inputAt_untouched (h : Graph) (d j v e k : Nat)
    (hne : ¬(e = d ∧ k = j)) :
    (h.setInput d j v).inputAt e k = h.inputAt e k := by
  unfold Graph.inputAt
  rw [find?_setInput]
  cases hf : h.find? e with
  | none => rfl
  | some m =>
    have hmid : m.id = e := (find?_id_of_some h e m hf).1
    simp only [Option.map_some', Option.some_bind]
    by_cases hid : m.id = d
    · have hed : e = d := hmid ▸ hid
      have hkj : k ≠ j := fun hkj => hne ⟨hed, hkj⟩
      rw [if_pos hid]
      show (m.inputs.set j (some v))[k]? = m.inputs[k]?
      exact List.getElem?_set_ne (fun hj => hkj hj.symm)
    · rw [if_neg hid]

theorem foldl_setInput_inputAt (v : Nat) :
    ∀ (ps : List (Nat × Nat)) (h : Graph) (e k : Nat),
      ((ps.foldl (fun acc p => acc.setInput p.1 p.2 v) h).inputAt e k) =
        (if (e, k) ∈ ps ∧ (∃ m, h.find? e = some m ∧ k < m.inputs.length)
         then some (some v) else h.inputAt e k) := by
  intro ps
  induction ps with
  | nil =>
    intro h e k
    rw [if_neg (by rintro ⟨h1, -⟩; cases h1)]
    rfl
  | cons p t ih =>
    intro h e k
    obtain ⟨d, j⟩ := p
    rw [List.foldl_cons, ih (h.setInput d j v) e k]
    by_cases hA : ∃ m, h.find? e = some m ∧ k < m.inputs.length
    · have hA2 : ∃ m, (h.setInput d j v).find? e = some m ∧ k < m.inputs.length :=
        (setInput_find?_exists_iff h d j v e k).mpr hA
      by_cases hmem : (e, k) ∈ t
      · rw [if_pos ⟨hmem, hA2⟩, if_pos ⟨List.mem_cons_of_mem _ hmem, hA⟩]
      · rw [if_neg (fun hc => hmem hc.1)]
        by_cases hdj : (e, k) = (d, j)
        · have hed : e = d := congrArg Prod.fst hdj
          have hkj : k = j := congrArg Prod.snd hdj
          subst hed
          subst hkj
          rw [if_pos ⟨List.mem_cons_self _ _, hA⟩]
          obtain ⟨m, hm, hk⟩ := hA
          have hmid : m.id = e := (find?_id_of_some h e m hm).1
          unfold Graph.inputAt
          rw [find?_setInput, hm]
          simp only [Option.map_some', Option.some_bind]
          rw [if_pos hmid]
          exact List.getElem?_set_self hk
        · rw [if_neg (by
            rintro ⟨hm, -⟩
            rcases List.mem_cons.mp hm with h1 | h1
            · exact hdj h1
            · exact hmem h1)]
          exact setInput_inputAt_untouched h d j v e k (fun hc => hdj (by rw [hc.1, hc.2]))
    · have hA2 : ¬∃ m, (h.setInput d j v).find? e = some m ∧ k < m.inputs.length :=
        fun hc => hA ((setInput_find?_exists_iff h d j v e k).mp hc)
      rw [if_neg (fun hc => hA2 hc.2), if_neg (fun hc => hA hc.2)]
      by_cases hdj : e = d ∧ k = j
      · -- the touched slot: but the slot index is out of range or the node is absent
        unfold Graph.inputAt
        rw [find?_setInput]
        cases hf : h.find? e with
        | none => rfl
        | some m =>
          have hlen : ¬ k < m.inputs.length := fun hk => hA ⟨m, hf, hk⟩
          simp only [Option.map_some', Option.some_bind]
          obtain ⟨hed, hkj⟩ := hdj
          by_cases hid : m.id = d
          · rw [if_pos hid]
            show (m.inputs.set j (some v))[k]? = m.inputs[k]?
            subst hkj
            rw [List.getElem?_set]
            rw [if_pos rfl, if_neg hlen]
            symm
            exact List.getElem?_eq_none (Nat.le_of_not_lt hlen)
          · rw [if_neg hid]
      · exact setInput_inputAt_untouched h d j v e k hdj



theorem mem_getOutputs (g : Graph) (i d k : Nat) :
    (d, k) ∈ getOutputs g i ↔
      ∃ n ∈ g.nodes, n.id = d ∧ n.inputs[k]? = some (some i) := by
  unfold getOutputs
  simp only [List.mem_flatMap, List.mem_filterMap, List.mem_range]
  constructor
  · rintro ⟨n, hn, k2, hk2, hcond⟩
    obtain ⟨hc, heq⟩ := Option.ite_none_right_eq_some.mp hcond
    injection heq with heq
    have hd : n.id = d := congrArg Prod.fst heq
    have hk : k2 = k := congrArg Prod.snd heq
    exact ⟨n, hn, hd, hk ▸ hc⟩
  · rintro ⟨n, hn, hd, hc⟩
    have hk : k < n.inputs.length := (List.getElem?_eq_some_iff.mp hc).1
    exact ⟨n, hn, k, hk, by rw [if_pos hc, hd]⟩

theorem foldl_setInput_find?_isSome (v : Nat) :
    ∀ (ps : List (Nat × Nat)) (h : Graph) (e : Nat),
      ((ps.foldl (fun acc p => acc.setInput p.1 p.2 v) h).find? e).isSome =
        (h.find? e).isSome := by
  intro ps
  induction ps with
  | nil => intro h e; rfl
  | cons p t ih =>
    intro h e
    rw [List.foldl_cons, ih, find?_setInput]
    cases h.find? e <;> rfl



theorem replaceCamera_eq (g : Graph) (cam : Nat) (ns : List GNode) (root : Nat) :
    replaceCamera g cam (some (ns, root)) =
      (match findCameraUpstream ⟨g.nodes ++ ns⟩ root true with
       | (none, g2) => (none, g2)
       | (some nc, g2) =>
         let g3 := g2.setPos nc (g.xposOf cam) (g.yposOf cam)
         let g4 := (g3.dependentIds nc).foldl Graph.deleteNode g3
         let g5 := g4.deleteNode cam
         let g6 := (getOutputs g cam).foldl (fun h p => h.setInput p.1 p.2 nc) g5
         (some nc, g6)) := rfl

theorem pasted_graph_hyps (g : Graph) (ns : List GNode)
    (hclosed : ∀ n ∈ g.nodes, ∀ j ∈ n.deps, j ∈ g.ids)
    (hfresh : ∀ m ∈ ns, m.id ∉ g.ids)
    (hself : ∀ m ∈ ns, ∀ j ∈ m.deps, j ∈ ns.map GNode.id) :
    (∀ n ∈ (Graph.mk (g.nodes ++ ns)).nodes, n.id ∈ ns.map GNode.id →
       ∀ j ∈ n.deps, j ∈ ns.map GNode.id) ∧
    (∀ n ∈ (Graph.mk (g.nodes ++ ns)).nodes, n.id ∉ ns.map GNode.id →
       ∀ j ∈ n.deps, j ∉ ns.map GNode.id) := by
  constructor
  · intro m hm hmS j hj
    rcases List.mem_append.mp hm with hmg | hmn
    · obtain ⟨m2, hm2, hm2id⟩ := List.mem_map.mp hmS
      exact absurd (List.mem_map.mpr ⟨m, hmg, rfl⟩) (hm2id ▸ hfresh m2 hm2)
    · exact hself m hmn j hj
  · intro m hm hmS j hj hjS
    rcases List.mem_append.mp hm with hmg | hmn
    · obtain ⟨m2, hm2, hm2id⟩ := List.mem_map.mp hjS
      exact (hm2id ▸ hfresh m2 hm2) (hclosed m hmg j hj)
    · exact hmS (List.mem_map.mpr ⟨m, hmn, rfl⟩)

/-- The destructive upstream search, run from the pasted root over the
pre-call graph extended with the pasted nodes, leaves every pre-existing
node untouched (it is still found with identical class, position and
wiring), only ever returns a pasted node, and never adds nodes. -/
theorem search_preserves_preexisting (g : Graph) (ns : List GNode) (root : Nat)
    (hnodup : g.ids.Nodup)
    (hclosed : ∀ n ∈ g.nodes, ∀ j ∈ n.deps, j ∈ g.ids)
    (hfresh : ∀ m ∈ ns, m.id ∉ g.ids)
    (hself : ∀ m ∈ ns, ∀ j ∈ m.deps, j ∈ ns.map GNode.id)
    (hroot : root ∈ ns.map GNode.id) :
    (∀ n ∈ g.nodes, (findCameraUpstream ⟨g.nodes ++ ns⟩ root true).2.find? n.id = some n) ∧
    (∀ i, (findCameraUpstream ⟨g.nodes ++ ns⟩ root true).1 = some i → i ∈ ns.map GNode.id) ∧
    (findCameraUpstream ⟨g.nodes ++ ns⟩ root true).2.ids.Sublist
      (Graph.mk (g.nodes ++ ns)).ids := by
  obtain ⟨h2, h3⟩ := pasted_graph_hyps g ns hclosed hfresh hself
  have hq : ∀ i ∈ [root], i ∈ ns.map GNode.id := by
    intro i hi
    rw [List.mem_singleton] at hi
    exact hi ▸ hroot
  obtain ⟨F1, F2, F3⟩ := findAux_spec (ns.map GNode.id)
    ((Graph.mk (g.nodes ++ ns)).searchFuel [root]) ⟨g.nodes ++ ns⟩ [root] hq h2 h3
  have hdef : findCameraUpstreamAux true ((Graph.mk (g.nodes ++ ns)).searchFuel [root])
      ⟨g.nodes ++ ns⟩ [root] = findCameraUpstream ⟨g.nodes ++ ns⟩ root true := rfl
  rw [hdef] at F1 F2 F3
  refine ⟨?_, F2, F3⟩
  intro n hn
  have hnS : n.id ∉ ns.map GNode.id := by
    intro hin
    obtain ⟨m2, hm2, hm2id⟩ := List.mem_map.mp hin
    exact (hm2id ▸ hfresh m2 hm2) (List.mem_map.mpr ⟨n, hn, rfl⟩)
  have hF := F1 n.id hnS
  have hmemids : (g.find? n.id).isSome = true := by
    rw [find?_isSome_iff_mem_ids]
    exact List.mem_map.mpr ⟨n, hn, rfl⟩
  rw [hF, find?_append_left g ns n.id hmemids]
  exact find?_of_mem_nodup g n hn hnodup

/-- Claim C1 (amended): when `replaceCamera` aborts - because the paste
yielded no node, or because the destructive search found no camera -
the function returns `None` and every pre-existing node survives with
identical class, position and wiring; pasted nodes not reached by the
search may however be left behind. -/
theorem C1_theorem (g : Graph) (cam : Nat) (paste : Option (List GNode × Nat))
    (hnodup : g.ids.Nodup)
    (hclosed : ∀ n ∈ g.nodes, ∀ j ∈ n.deps, j ∈ g.ids)
    (hpaste : ∀ ns root, paste = some (ns, root) →
      root ∈ ns.map GNode.id ∧ (∀ m ∈ ns, m.id ∉ g.ids) ∧
      (∀ m ∈ ns, ∀ j ∈ m.deps, j ∈ ns.map GNode.id))
    (habort : (replaceCamera g cam paste).1 = none) :
    ∀ n ∈ g.nodes, (replaceCamera g cam paste).2.find? n.id = some n := by
  intro n hn
  cases paste with
  | none =>
    show g.find? n.id = some n
    exact find?_of_mem_nodup g n hn hnodup
  | some pr =>
    obtain ⟨ns, root⟩ := pr
    obtain ⟨hroot, hfresh, hself⟩ := hpaste ns root rfl
    obtain ⟨P1, P2, P3⟩ := search_preserves_preexisting g ns root hnodup hclosed hfresh hself hroot
    rw [replaceCamera_eq] at habort ⊢
    cases hr : findCameraUpstream ⟨g.nodes ++ ns⟩ root true with
    | mk r g2 =>
      cases r with
      | none =>
        show g2.find? n.id = some n
        have hP := P1 n hn
        rw [hr] at hP
        exact hP
      | some nc =>
        rw [hr] at habort
        exact Option.noConfusion habort



theorem setPos_ids (g : Graph) (i : Nat) (x y : Int) : (g.setPos i x y).ids = g.ids := by
  show (g.nodes.map _).map GNode.id = g.nodes.map GNode.id
  rw [List.map_map]
  exact List.map_congr_left (fun n hn => by by_cases h : n.id = i <;> simp [h, Function.comp])

theorem mem_dependentIds (g : Graph) (i d : Nat) :
    d ∈ g.dependentIds i ↔
      ∃ m ∈ g.nodes, m.inputs.contains (some i) = true ∧ m.id = d := by
  unfold Graph.dependentIds
  simp only [List.mem_map, List.mem_filter]
  constructor
  · rintro ⟨m, ⟨hm, hc⟩, rfl⟩
    exact ⟨m, hm, hc, rfl⟩
  · rintro ⟨m, hm, hc, rfl⟩
    exact ⟨m, ⟨hm, hc⟩, rfl⟩

theorem clearInputTo_getElem? (i : Nat) (n : GNode) (k : Nat) :
    (clearInputTo i n).inputs[k]? =
      (n.inputs[k]?).map (fun s => if s = some i then none else s) := by
  show (n.inputs.map _)[k]? = _
  rw [List.getElem?_map]

theorem final_stage_spec (g g2 : Graph) (cam nc : Nat) (S : List Nat) (x y : Int)
    (gf : Graph)
    (hg2find : ∀ n ∈ g.nodes, g2.find? n.id = some n)
    (hg2sub : g2.ids.Sublist (g.ids ++ S))
    (hnodup : (g.ids ++ S).Nodup)
    (hclosed : ∀ n ∈ g.nodes, ∀ j ∈ n.deps, j ∈ g.ids)
    (hncS : nc ∈ S)
    (hnoloop : ∀ n ∈ g.nodes, n.id = cam → some cam ∉ n.inputs)
    (hgf : gf = (getOutputs g cam).foldl (fun h p => h.setInput p.1 p.2 nc)
        ((((g2.setPos nc x y).dependentIds nc).foldl Graph.deleteNode
          (g2.setPos nc x y)).deleteNode cam)) :
    (∀ p ∈ getOutputs g cam, gf.inputAt p.1 p.2 = some (some nc)) ∧
    (∀ n ∈ g.nodes, n.id ≠ cam →
      (gf.find? n.id).isSome = true ∧
      ∀ k, (n.id, k) ∉ getOutputs g cam → gf.inputAt n.id k = n.inputs[k]?) := by
  have hdisj : g.ids.Disjoint S := (List.nodup_append.mp hnodup).2.2
  have hpre_notS : ∀ n, n ∈ g.nodes → n.id ∉ S := by
    intro n hn hin
    exact hdisj (List.mem_map.mpr ⟨n, hn, rfl⟩) hin
  -- stage 3: reposition the new camera
  have hg3find : ∀ n ∈ g.nodes, (g2.setPos nc x y).find? n.id = some n := by
    intro n hn
    rw [find?_setPos_ne g2 nc x y n.id (fun he => hpre_notS n hn (he ▸ hncS))]
    exact hg2find n hn
  have hg3nd : (g2.setPos nc x y).ids.Nodup := by
    rw [setPos_ids]
    exact hg2sub.nodup hnodup
  have hg3sub : (g2.setPos nc x y).ids.Sublist (g.ids ++ S) := by
    rw [setPos_ids]; exact hg2sub
  -- members of g3 whose id is a pre-call id are pre-call nodes
  have hg3mem : ∀ m ∈ (g2.setPos nc x y).nodes, m.id ∉ S → m ∈ g.nodes := by
    intro m hm hmS
    have hid : m.id ∈ g.ids ++ S :=
      hg3sub.mem (List.mem_map.mpr ⟨m, hm, rfl⟩)
    have hidg : m.id ∈ g.ids := by
      rcases List.mem_append.mp hid with h | h
      · exact h
      · exact absurd h hmS
    obtain ⟨n, hn, hnid⟩ := List.mem_map.mp hidg
    have h1 : (g2.setPos nc x y).find? m.id = some n := hnid ▸ hg3find n hn
    have h2 : (g2.setPos nc x y).find? m.id = some m :=
      find?_of_mem_nodup (g2.setPos nc x y) m hm hg3nd
    rw [h1] at h2
    injection h2 with h2
    exact h2 ▸ hn
  -- the residual dependents of the new camera are pasted nodes
  have hD : ∀ d ∈ (g2.setPos nc x y).dependentIds nc, d ∈ S := by
    intro d hd
    obtain ⟨m, hm, hc, rfl⟩ := (mem_dependentIds _ nc d).mp hd
    by_contra hdS
    have hmg : m ∈ g.nodes := hg3mem m hm hdS
    have hncdep : nc ∈ m.deps := (mem_deps_iff m nc).mpr (List.elem_iff.mp hc)
    exact hdisj (hclosed m hmg nc hncdep) hncS
  -- stage 4: deleting those dependents leaves pre-call nodes alone
  have hg4find : ∀ n ∈ g.nodes,
      (((g2.setPos nc x y).dependentIds nc).foldl Graph.deleteNode
        (g2.setPos nc x y)).find? n.id = some n := by
    intro n hn
    rw [foldl_deleteNode_find? S _ hD (g2.setPos nc x y) n.id (hpre_notS n hn) ?_]
    · exact hg3find n hn
    · intro m hm j hj hjS
      rw [hg3find n hn] at hm
      injection hm with hm
      exact hdisj (hclosed m (hm ▸ hn) j hj) hjS
  -- stage 5: deleting the old camera
  have hg5find : ∀ n ∈ g.nodes, n.id ≠ cam →
      ((((g2.setPos nc x y).dependentIds nc).foldl Graph.deleteNode
        (g2.setPos nc x y)).deleteNode cam).find? n.id = some (clearInputTo cam n) := by
    intro n hn hne
    rw [find?_deleteNode_ne _ cam n.id hne, hg4find n hn]
    rfl
  -- captured pairs come from pre-call consumers other than the old camera
  have hpair : ∀ p ∈ getOutputs g cam,
      ∃ m ∈ g.nodes, m.id = p.1 ∧ m.inputs[p.2]? = some (some cam) ∧ p.1 ≠ cam := by
    intro p hp
    obtain ⟨m, hm, hid, hc⟩ := (mem_getOutputs g cam p.1 p.2).mp hp
    refine ⟨m, hm, hid, hc, ?_⟩
    intro hcam
    exact hnoloop m hm (hid.trans hcam) (List.getElem?_mem hc)
  subst hgf
  constructor
  · rintro ⟨d, k⟩ hp
    obtain ⟨m, hm, hid, hc, hdc⟩ := hpair (d, k) hp
    have hid2 : m.id = d := hid
    have hdc2 : d ≠ cam := hdc
    have hk : k < m.inputs.length := (List.getElem?_eq_some_iff.mp hc).1
    rw [foldl_setInput_inputAt nc (getOutputs g cam) _ d k, if_pos ?_]
    refine ⟨hp, clearInputTo cam m, ?_, ?_⟩
    · rw [← hid2]
      exact hg5find m hm (fun he => hdc2 (hid2 ▸ he))
    · rw [clearInputTo_inputs_length]; exact hk
  · intro n hn hne
    constructor
    · rw [foldl_setInput_find?_isSome, hg5find n hn hne]
      rfl
    · intro k hk
      rw [foldl_setInput_inputAt nc (getOutputs g cam) _ n.id k,
          if_neg (fun hcon => hk hcon.1)]
      unfold Graph.inputAt
      rw [hg5find n hn hne]
      simp only [Option.some_bind]
      rw [clearInputTo_getElem?]
      cases hs : n.inputs[k]? with
      | none => rfl
      | some s =>
        simp only [Option.map_some']
        rw [if_neg ?_]
        intro hscam
        exact hk ((mem_getOutputs g cam n.id k).mpr ⟨n, hn, rfl, hscam ▸ hs⟩)



/-- Claim C5 (confirmed): for every successful `replaceCamera` call -
with the paste self-contained and fresh, and the old camera not its own
consumer - every (consumer, inputSlot) pair that was connected to the
old camera's output before the call reads the new camera's output after
the call, every other pre-existing consumer survives, and the wiring of
every consumer input slot not captured in that set is unchanged. -/
theorem C5_theorem (g : Graph) (cam : Nat) (ns : List GNode) (root nc : Nat) (gf : Graph)
    (hnodup : (g.ids ++ ns.map GNode.id).Nodup)
    (hclosed : ∀ n ∈ g.nodes, ∀ j ∈ n.deps, j ∈ g.ids)
    (hself : ∀ m ∈ ns, ∀ j ∈ m.deps, j ∈ ns.map GNode.id)
    (hroot : root ∈ ns.map GNode.id)
    (hnoloop : ∀ n ∈ g.nodes, n.id = cam → some cam ∉ n.inputs)
    (hres : replaceCamera g cam (some (ns, root)) = (some nc, gf)) :
    (∀ p ∈ getOutputs g cam, gf.inputAt p.1 p.2 = some (some nc)) ∧
    (∀ n ∈ g.nodes, n.id ≠ cam →
      (gf.find? n.id).isSome = true ∧
      ∀ k, (n.id, k) ∉ getOutputs g cam → gf.inputAt n.id k = n.inputs[k]?) := by
  have hgnd : g.ids.Nodup := (List.nodup_append.mp hnodup).1
  have hdisj : g.ids.Disjoint (ns.map GNode.id) := (List.nodup_append.mp hnodup).2.2
  have hfresh : ∀ m ∈ ns, m.id ∉ g.ids :=
    fun m hm hin => hdisj hin (List.mem_map.mpr ⟨m, hm, rfl⟩)
  obtain ⟨P1, P2, P3⟩ :=
    search_preserves_preexisting g ns root hgnd hclosed hfresh hself hroot
  rw [replaceCamera_eq] at hres
  cases hr : findCameraUpstream ⟨g.nodes ++ ns⟩ root true with
  | mk r g2 =>
    rw [hr] at hres P1 P2 P3
    cases r with
    | none =>
      have h0 : (none : Option Nat) = some nc := congrArg Prod.fst hres
      exact Option.noConfusion h0
    | some nc0 =>
      have h1 : some nc0 = some nc := congrArg Prod.fst hres
      injection h1 with h1
      subst h1
      have hncS : nc0 ∈ ns.map GNode.id := P2 nc0 rfl
      have hgf : gf = (getOutputs g cam).foldl (fun h p => h.setInput p.1 p.2 nc0)
          ((((g2.setPos nc0 (g.xposOf cam) (g.yposOf cam)).dependentIds nc0).foldl
            Graph.deleteNode (g2.setPos nc0 (g.xposOf cam) (g.yposOf cam))).deleteNode cam) :=
        (congrArg Prod.snd hres).symm
      have hids : (Graph.mk (g.nodes ++ ns)).ids = g.ids ++ ns.map GNode.id := by
        show (g.nodes ++ ns).map GNode.id = _
        rw [List.map_append]
        rfl
      have P1b : ∀ n ∈ g.nodes, g2.find? n.id = some n := P1
      have P3b : g2.ids.Sublist (g.ids ++ ns.map GNode.id) := hids ▸ P3
      exact final_stage_spec g g2 cam nc0 (ns.map GNode.id)
        (g.xposOf cam) (g.yposOf cam) gf P1b P3b hnodup hclosed hncS hnoloop hgf

/-! ## The claims -/

/-- Claim C1 (corrected), counterexample: pasting a subgraph whose root
(a non-camera) does not reach a second pasted node, the search abort
returns `None` but the orphaned pasted node is left behind - the
post-call graph is not identical to the pre-call graph, contradicting
the byte-for-byte no-op guarantee. -/
theorem C1_counterexample :
    (replaceCamera gOld 0 pasteOrphan).1 = none ∧
    (replaceCamera gOld 0 pasteOrphan).2 ≠ gOld ∧
    (replaceCamera gOld 0 pasteOrphan).2 =
      ⟨[⟨0, "Camera", 3, 4, []⟩, ⟨2, "Y", 0, 0, []⟩]⟩ := by
  decide

/-- Witness for C1: a concrete aborting call (camera-less paste of a
single node) after which the pre-existing camera node is intact. -/
theorem C1_witness :
    (replaceCamera gOld 0 pasteNoCam).2.find? 0 =
      some ⟨0, "Camera", 3, 4, []⟩ := by
  have h := C1_theorem gOld 0 pasteNoCam (by decide)
    (by decide)
    (by
      intro ns root hpr
      have h2 : (([⟨1, "X", 0, 0, []⟩] : List GNode), (1 : Nat)) = (ns, root) := by
        injection hpr
      have hns : ns = [⟨1, "X", 0, 0, []⟩] := (congrArg Prod.fst h2).symm
      have hrt : root = 1 := (congrArg Prod.snd h2).symm
      subst hns
      subst hrt
      exact ⟨by decide, by decide, by decide⟩)
    (by decide)
  exact h ⟨0, "Camera", 3, 4, []⟩ (by decide)

/-- Claim C2 (corrected), counterexample: a container with two resolved
candidates whose disambiguation dialog is cancelled.  Contrary to the
claim, the user IS notified through the missing-camera error, and the
container's camera IS passed to `replaceCamera` (with `path = None`) -
the source has no `continue` after the notification.  The container
still contributes no result. -/
theorem C2_counterexample :
    runBatchAux envCancel [bdsOneCam] ⟨[], [], []⟩ =
      .ok ⟨[], [1], [(7, none)]⟩ ∧
    replaceBackdropCameras envCancel [bdsOneCam] = [] ∧
    ([(7, (none : Option String))] : List (Nat × Option String)) ≠ [] ∧
    ([1] : List Nat) ≠ [] :=
  ⟨rfl, rfl, by decide, by decide⟩

/-- Claim C2 (amended): for a container with cameras whose resolution
yields zero candidates, or whose disambiguation is cancelled, the user
is notified through the missing-camera error in both cases, every
camera of the container is still passed to `replaceCamera` with an
absent path, and - provided splicing with an absent path yields no
camera - the container contributes no ReplacementResult. -/
theorem C2_theorem (env : BatchEnv) (bds : Bds) (st : BatchState)
    (paths : List String)
    (hcam : bds.cameras.isEmpty = false)
    (hres : resolvePaths env.fs bds.shot = some paths)
    (hfail : paths = [] ∨ (2 ≤ paths.length ∧ env.choose bds.id paths = .ok none))
    (hsp : ∀ c, env.splice c none = none) :
    processOne env st bds =
      .ok ⟨st.results, st.notified ++ [bds.id],
           st.calls ++ bds.cameras.map (fun c => (c, none))⟩ :=
  processOne_missing_path env bds st paths hcam hres hfail hsp

/-- Witness for C2: the cancelled-dialog container concretely notifies,
calls the splicer once with an absent path, and adds no result. -/
theorem C2_witness :
    processOne envCancel ⟨[], [], []⟩ bdsOneCam =
      .ok ⟨[], [1], [(7, none)]⟩ := by
  have h := C2_theorem envCancel bdsOneCam ⟨[], [], []⟩ [fCandA, fCandB]
    (by decide) (by decide) (Or.inr ⟨by decide, rfl⟩) (fun c => rfl)
  exact h

/-- Claim C3 (corrected), counterexample: on a filesystem holding one
file that only the wildcard patterns reach, the batch resolution
returns that file (twice - the duplicated episode variant) from its
FIRST pass, while the exact strategy returns the empty list; the
claimed exact-first policy would instead return the file once via the
widened retry.  The first strategy run is therefore the wildcard one,
not the exact one. -/
theorem C3_counterexample :
    resolvePaths [fBlobOnly] bsEp123 = some [fBlobOnly, fBlobOnly] ∧
    getCameraPaths_exact_method [fBlobOnly] bsEp123 = some [] ∧
    claimExactFirstResolve [fBlobOnly] bsEp123 = some [fBlobOnly] ∧
    resolvePaths [fBlobOnly] bsEp123 ≠ claimExactFirstResolve [fBlobOnly] bsEp123 := by
  decide

/-- Claim C3 (amended): `getCameraPaths` is bound to the wildcard (blob)
method, so candidate-path resolution runs the wildcard strategy with the
concrete episode variants first, and only if that returns an empty list
is resolution retried with the episode widened to `*`; the exact
strategy never runs. -/
theorem C3_theorem (fs : List String) (bs : ShotId) (p : List String)
    (h : getCameraPaths fs bs false false = some p) :
    getCameraPaths fs bs false false = getCameraPaths_blob_method fs bs false false ∧
    (p ≠ [] → resolvePaths fs bs = some p) ∧
    (p = [] → resolvePaths fs bs = getCameraPaths fs bs true false) := by
  refine ⟨rfl, ?_, ?_⟩
  · intro hne
    unfold resolvePaths
    rw [h]
    show (if p.isEmpty = true then getCameraPaths fs bs true false else some p) = some p
    rw [if_neg (by simpa [List.isEmpty_iff] using hne)]
  · intro he
    subst he
    unfold resolvePaths
    rw [h]
    rfl

/-- Witness for C3: a single on-disk candidate is returned by the first
(wildcard) pass and the retry is not taken. -/
theorem C3_witness :
    getCameraPaths [fCandA] bsEp0 false false =
      getCameraPaths_blob_method [fCandA] bsEp0 false false ∧
    resolvePaths [fCandA] bsEp0 = some [fCandA] := by
  have h := C3_theorem [fCandA] bsEp0 [fCandA] (by decide)
  exact ⟨h.1, h.2.1 (by decide)⟩

/-- Claim C4 (confirmed): every failure arising while resolving,
disambiguating, or splicing a container during a `replaceBackdropCameras`
call is absorbed without aborting the batch.  For identities in the form
the batch loop receives them - extracted by `getFromPath` from some path,
as `getFromNodes` produces them - candidate resolution never raises (the
sequence and shot tokens are full regex matches, so the `%03d`
formatting succeeds); disambiguation-dialog failures are caught per
container by `except Exception`; and a splice failure of any kind is
swallowed inside `replaceCamera` itself by `restore_selection`'s
`return new_stuff` in `finally`.  The batch therefore runs every
container to completion and the decorated call returns exactly the
accumulated result list; no failure propagates to the caller. -/
theorem C4_theorem (env : BatchEnv) (bdss : List Bds)
    (hflow : ∀ b ∈ bdss, ∃ path, getFromPath path = some b.shot) :
    ∃ st : BatchState, runBatchAux env bdss ⟨[], [], []⟩ = .ok st ∧
      replaceBackdropCameras env bdss = st.results := by
  have hres : ∀ b ∈ bdss, (resolvePaths env.fs b.shot).isSome = true := by
    intro b hb
    obtain ⟨path, hp⟩ := hflow b hb
    obtain ⟨hsq, hsh⟩ := getFromPath_parses path b.shot hp
    exact resolvePaths_isSome env.fs b.shot hsq hsh
  obtain ⟨st, hst⟩ := runBatchAux_ok env bdss hres ⟨[], [], []⟩
  refine ⟨st, hst, ?_⟩
  unfold replaceBackdropCameras
  rw [hst]

/-- Witness for C4: a concrete one-container batch whose identity comes
from a path, with an arbitrary dialog and a succeeding splice, completes
and returns its accumulated results. -/
theorem C4_witness :
    ∃ st : BatchState, runBatchAux envOk [bdsOneCam] ⟨[], [], []⟩ = .ok st ∧
      replaceBackdropCameras envOk [bdsOneCam] = st.results := by
  refine C4_theorem envOk [bdsOneCam] ?_
  intro b hb
  rw [List.mem_singleton] at hb
  subst hb
  exact ⟨pathEp0, by decide⟩

/-- Witness for C5: a concrete successful splice; the consumer that read
the old camera (id 0) at slot 0 reads the new camera (id 2) afterwards
and survives. -/
theorem C5_witness :
    gfWire.inputAt 1 0 = some (some 2) ∧ (gfWire.find? 1).isSome = true := by
  have h := C5_theorem gWire 0 nsWire 2 2 gfWire (by decide) (by decide)
    (by decide) (by decide) (by decide) (by decide)
  exact ⟨h.1 (1, 0) (by decide),
         (h.2 ⟨1, "Merge", 0, 0, [some 0]⟩ (by decide) (by decide)).1⟩

/-- Claim C6 (corrected), counterexample: a path on which all four token
patterns resolve - shot, sequence, the secondary episode pattern (with
an empty capture) and project - yet `getFromPath` returns absent,
because the empty episode capture is falsy. -/
theorem C6_counterexample :
    searchTokFull 's' 'h' pathEmptyEp.data = some ("SH020".data) ∧
    searchTokFull 's' 'q' pathEmptyEp.data = some ("SQ010".data) ∧
    searchTokFull 'e' 'p' pathEmptyEp.data = none ∧
    searchEp2Group pathEmptyEp.data = some [] ∧
    searchProjFull pathEmptyEp.data = some ("Suntop".data) ∧
    getFromPath pathEmptyEp = none := by
  decide

/-- Claim C6 (amended): `getFromPath` returns an identity exactly when
all four extracted values are truthy (present and non-empty); the
returned identity then carries exactly the four extracted non-empty
tokens, and no partially populated identity is ever returned - but a
path on which a pattern resolves with an empty capture yields absent. -/
theorem C6_theorem (path : String) :
    (∀ bs, getFromPath path = some bs →
      bs.project.data ≠ [] ∧ bs.episode.data ≠ [] ∧
      bs.sequence.data ≠ [] ∧ bs.shot.data ≠ [] ∧
      searchProjFull path.data = some bs.project.data ∧
      episodeOfPath path.data = some bs.episode.data ∧
      searchTokFull 's' 'q' path.data = some bs.sequence.data ∧
      searchTokFull 's' 'h' path.data = some bs.shot.data) ∧
    (getFromPath path = none ↔
      ¬(pyT (episodeOfPath path.data) && pyT (searchTokFull 's' 'q' path.data) &&
        pyT (searchTokFull 's' 'h' path.data) && pyT (searchProjFull path.data)) = true) := by
  constructor
  · intro bs hbs
    unfold getFromPath at hbs
    by_cases hc : (pyT (episodeOfPath path.data) && pyT (searchTokFull 's' 'q' path.data) &&
        pyT (searchTokFull 's' 'h' path.data) && pyT (searchProjFull path.data)) = true
    · rw [if_pos hc] at hbs
      obtain ⟨⟨⟨he, hq⟩, hh⟩, hp⟩ := by
        simpa [Bool.and_eq_true] using hc
      obtain ⟨le, hle, hne⟩ := (pyT_spec _).mp he
      obtain ⟨lq, hlq, hnq⟩ := (pyT_spec _).mp hq
      obtain ⟨lh, hlh, hnh⟩ := (pyT_spec _).mp hh
      obtain ⟨lp, hlp, hnp⟩ := (pyT_spec _).mp hp
      cases hbs
      simp [hle, hlq, hlh, hlp, hne, hnq, hnh, hnp]
    · rw [if_neg hc] at hbs
      cases hbs
  · unfold getFromPath
    by_cases hc : (pyT (episodeOfPath path.data) && pyT (searchTokFull 's' 'q' path.data) &&
        pyT (searchTokFull 's' 'h' path.data) && pyT (searchProjFull path.data)) = true
    · simp [hc]
    · simp [hc]

/-- Witness for C6: the specification's worked scenario path yields the
complete identity (Suntop, ep01, sq010, sh020), with every token
non-empty and equal to its extractor's output. -/
theorem C6_witness :
    ("Suntop" : String).data ≠ [] ∧ ("ep01" : String).data ≠ [] ∧
    ("sq010" : String).data ≠ [] ∧ ("sh020" : String).data ≠ [] ∧
    searchProjFull scenarioPath.data = some ("Suntop" : String).data ∧
    episodeOfPath scenarioPath.data = some ("ep01" : String).data ∧
    searchTokFull 's' 'q' scenarioPath.data = some ("sq010" : String).data ∧
    searchTokFull 's' 'h' scenarioPath.data = some ("sh020" : String).data :=
  (C6_theorem scenarioPath).1 ⟨"Suntop", "ep01", "sq010", "sh020"⟩ (by decide)

/-- Claim C8 (corrected), counterexample.  Two refutations: (1) the
scored pattern set is not the full tagged set - `'episode_re2'` does not
end in `'_re'`, so the `attr.endswith('_re')` scan skips the secondary
episode pattern, and a path on which that pattern matches (next to the
project pattern) scores only the project match's 10 points; (2) a path
matching one pattern five times outscores a path matching two distinct
patterns once each, so the score is not non-decreasing in the count of
distinct patterns matched. -/
theorem C8_counterexample :
    searchHits (ep2Len prodOnlyPath.data) prodOnlyPath.data.length = true ∧
    getPathScore prodOnlyPath = 10 ∧
    distinctPatternsMatched twoPatPath = 2 ∧
    distinctPatternsMatched onePatPath = 1 ∧
    getPathScore twoPatPath = 20 ∧
    getPathScore onePatPath = 50 ∧
    ¬ getPathScore onePatPath ≤ getPathScore twoPatPath := by
  decide

/-- Claim C8 (amended): `getPathScore` sums 10 points per `findall`
match across the six patterns whose attribute name ends in `'_re'`
(beauty, char, episode, project, sequence, shot - the secondary episode
pattern `episode_re2` is excluded by the name filter), hence equals 10
times that total match count, is monotone in that total, and is bounded
below by 10 times the number of distinct scored patterns matched. -/
theorem C8_theorem (p q : String) :
    getPathScore p = 10 * totalMatches p ∧
    10 * distinctPatternsMatched p ≤ getPathScore p ∧
    (totalMatches q ≤ totalMatches p → getPathScore q ≤ getPathScore p) := by
  refine ⟨rfl, ?_, ?_⟩
  · show 10 * distinctPatternsMatched p ≤ 10 * totalMatches p
    exact Nat.mul_le_mul_left 10 (distinct_le_total p)
  · intro hle
    exact Nat.mul_le_mul_left 10 hle

/-- Witness for C8: the amended monotonicity at concrete paths. -/
theorem C8_witness :
    getPathScore onePatPath = 10 * totalMatches onePatPath ∧
    getPathScore twoPatPath ≤ getPathScore onePatPath :=
  ⟨(C8_theorem onePatPath twoPatPath).1,
   (C8_theorem onePatPath twoPatPath).2.2 (by decide)⟩

/-- Claim C9 (corrected), counterexample: for an identity whose episode
number has three digits the 2-digit and 3-digit zero-padded variants
coincide, so the wildcard generator globs the same pattern twice and
returns the same existing file twice: the candidate list is NOT
deduplicated. -/
theorem C9_counterexample :
    getCameraPaths_blob_method [fBlobOnly] bsEp123 false false =
      some [fBlobOnly, fBlobOnly] ∧
    ¬ ([fBlobOnly, fBlobOnly] : List String).Nodup := by
  decide

/-- Claim C9 (amended): the wildcard method aggregates the glob hits
across all template and variant combinations - every returned candidate
is an existing filesystem path - but it does not deduplicate them. -/
theorem C9_theorem (fs : List String) (bs : ShotId) (me ms : Bool)
    (l : List String) (h : getCameraPaths_blob_method fs bs me ms = some l) :
    ∀ p ∈ l, p ∈ fs :=
  blob_sound fs bs me ms l h

/-- Witness for C9: the duplicated hit is indeed a filesystem path. -/
theorem C9_witness :
    getCameraPaths_blob_method [fBlobOnly] bsEp123 false false =
      some [fBlobOnly, fBlobOnly] ∧ fBlobOnly ∈ [fBlobOnly] :=
  ⟨by decide,
   C9_theorem [fBlobOnly] bsEp123 false false [fBlobOnly, fBlobOnly]
     (by decide) fBlobOnly (by decide)⟩

/-- Claim C10 (confirmed): `getPathsFromBackdrop` collects the Read-node
file paths as dict keys, so the returned candidate list holds each
distinct path at most once, holds exactly the non-empty `file` values of
the Read-class nodes, and Read nodes with an empty file value contribute
nothing. -/
theorem C10_theorem (nodes : List RNode) :
    (getPathsFromBackdrop nodes).Nodup ∧
    ∀ p, p ∈ getPathsFromBackdrop nodes ↔
      (p ≠ "" ∧ ∃ n ∈ nodes, n.cls = "Read" ∧ n.file = p) := by
  have hperm := sortDescByScore_perm (collectReadPaths nodes)
  have hspec := collect_fold_spec nodes []
  constructor
  · exact hperm.nodup_iff.mpr (hspec.2 List.nodup_nil)
  · intro p
    rw [show getPathsFromBackdrop nodes = sortDescByScore (collectReadPaths nodes) from rfl]
    rw [hperm.mem_iff, show collectReadPaths nodes = nodes.foldl collectStep [] from rfl,
        hspec.1 p]
    simp

end ReplaceCam
